import Mathlib

/-!
StretchPlayer playback engine: embedding of `src/Engine.cpp`

The engine is embedded as a record `Engine` of the member variables that the
real-time cycle and the control operations read or write, and every member
function becomes a function on that record.

Conventions of the embedding:

* `float`/`double` values are rationals (`ℚ`). In the position query and the seek,
  whose results depend on it, every operation and conversion is rounded to the
  nearest member of its format (`rn`). The audio samples, the gain and the
  conversions of the shift and of the recording bounds to frames are written in
  exact arithmetic, and the theorems about them take the converted value as it is.
* A `std::vector<float>` is a `List Sample`; a raw `float*` with a frame count is
  a list together with a start index, and a read or write outside the vector is
  undefined behaviour, which the embedding reports as `none`.
* `uint32_t`, `int32_t` and `size_t` arithmetic is done on `Nat`/`Int` with the
  wrap-around written out (`% 2^32`, `% 2^64`).
* The result of `try_lock` is an argument of the cycle.
-/

namespace StretchPlayer

/-- An audio sample (`float` in the source). -/
abbrev Sample := ℚ

/-- One stereo frame, left then right. -/
abbrev Frame := Sample × Sample

/-! ## Machine integers -/

/-- Modulus of `uint32_t`. -/
def U32 : Nat := 2 ^ 32

/-- Modulus of `size_t` (LP64). -/
def SIZE : Nat := 2 ^ 64

/-- Conversion to `uint32_t`. -/
def toU32 (i : Int) : Nat := (i % (U32 : Int)).toNat

/-- Conversion to `int32_t` (two's complement). -/
def toI32 (n : Nat) : Int :=
  if n % U32 < 2 ^ 31 then ((n % U32 : Nat) : Int) else ((n % U32 : Nat) : Int) - (U32 : Int)

/-- Conversion of an `int` to `size_t` (sign extension, then modulo `2^64`). -/
def toSize (i : Int) : Nat := (i % (SIZE : Int)).toNat

/-- Conversion of a floating-point value to an integer type: truncation toward zero. -/
def truncQ (q : ℚ) : Int := if 0 ≤ q then Int.floor q else Int.ceil q

/-- Number of values of `unsigned long` (LP64). -/
def ULONG : Nat := 2 ^ 64

/-! ## Floating point

The values of `float` and `double` are rationals; an operation or a conversion gives
the exact result rounded to the nearest member of its format, ties to the member with
an even last digit (IEEE 754, the default rounding). -/

/-- Number of binary digits of `n`, by halving; `fuel` bounds the number of steps. -/
def bitLenAux : Nat → Nat → Nat
  | 0, _ => 0
  | fuel + 1, n => if n = 0 then 0 else bitLenAux fuel (n / 2) + 1

/-- Number of binary digits of `n`. -/
def bitLen (n : Nat) : Nat := bitLenAux n n

/-- The power of two with exponent `k`. -/
def pow2 (k : Int) : ℚ :=
  if 0 ≤ k then ((2 ^ k.toNat : Nat) : ℚ) else 1 / ((2 ^ (-k).toNat : Nat) : ℚ)

/-- The exponent `e` of a value that is not 0: `2^e ≤ |q| < 2^(e+1)`. -/
def binade (q : ℚ) : Int :=
  let e0 : Int := (bitLen q.num.natAbs : Int) - (bitLen q.den : Int)
  if pow2 e0 ≤ |q| then e0 else e0 - 1

/-- Rounding to the nearest integer, a tie to the even one. -/
def roundEven (x : ℚ) : Int :=
  let fl := Int.floor x
  let r := x - fl
  if r < 1 / 2 then fl
  else if 1 / 2 < r then fl + 1
  else if fl % 2 = 0 then fl else fl + 1

/-- A binary floating-point format: `prec` digits in the significand, `2^qmin` the
smallest positive (subnormal) member, and members below `2^(emax+1)` in magnitude. -/
structure Fmt where
  prec : Nat
  qmin : Int
  emax : Int
  deriving DecidableEq, Repr

/-- The format of `float`. -/
def binary32 : Fmt := { prec := 24, qmin := -149, emax := 127 }

/-- The format of `double`. -/
def binary64 : Fmt := { prec := 53, qmin := -1074, emax := 1023 }

/-- The exponent of the spacing of the format's members around `q`. -/
def quantum (f : Fmt) (q : ℚ) : Int := max (binade q - ((f.prec : Int) - 1)) f.qmin

/-- Rounding to the nearest member of the format, ties to even, with the exponent not
bounded above: a result of magnitude `2^(emax+1)` or more stands for an infinity. -/
def rn (f : Fmt) (q : ℚ) : ℚ :=
  if q = 0 then 0 else (roundEven (q / pow2 (quantum f q)) : ℚ) * pow2 (quantum f q)

/-- A rounded result as a finite number: `none` for an infinity. -/
def finite (f : Fmt) (q : ℚ) : Option ℚ :=
  if |q| < pow2 (f.emax + 1) then some q else none

/-- The division `a / b` in the format `f`: `none` when the result is not a finite
number (a divisor 0 gives an infinity or a NaN). -/
def fdiv (f : Fmt) (a b : ℚ) : Option ℚ :=
  if b = 0 then none else finite f (rn f (a / b))

/-! ## The Stretch Pipeline -/

/-- Modelled from the spec: the Stretch Pipeline, class `RubberBandServer`, whose
header and implementation are not under `src/`. The spec gives its contract only:
it accepts audio pushed in and buffers it (`input`, the buffered-but-unconsumed
input, of bounded `capacity`), yields transformed audio on demand (`output`, the
frames ready to be read), and reports the batching thresholds `feed_block_min`,
`feed_block_max` and a `latency`. Its worker thread moves audio from `input` to
`output` between the engine's calls; a theorem that quantifies over all values of
this record covers every value the counters may report to one cycle. `resets`
counts the calls of `reset`. -/
structure Stretcher where
  capacity : Nat
  feed_block_min : Nat
  feed_block_max : Nat
  latency : Nat
  input : List Frame
  output : List Frame
  resets : Nat
  deriving DecidableEq, Repr

namespace Stretcher

/-- Modelled from the spec: `written()`, the pipeline's buffered-but-unconsumed input. -/
def written (s : Stretcher) : Nat := s.input.length

/-- Modelled from the spec: `available_write()`, the free input capacity. -/
def available_write (s : Stretcher) : Nat := s.capacity - s.input.length

/-- Modelled from the spec: `available_read()`, the number of output frames buffered. -/
def available_read (s : Stretcher) : Nat := s.output.length

/-- Modelled from the spec: `read_audio(left, right, count)` yields the oldest
`count` buffered output frames, or all of them when fewer are buffered, and removes
them from the pipeline. -/
def read_audio (s : Stretcher) (count : Nat) : List Frame × Stretcher :=
  (s.output.take count, { s with output := s.output.drop count })

/-- Modelled from the spec: `write_audio(left, right, count)` pushes `count` frames
of (left, right) samples into the pipeline. -/
def write_audio (s : Stretcher) (l r : List Sample) : Stretcher :=
  { s with input := s.input ++ List.zip l r }

/-- Modelled from the spec: `reset()` discards the input pushed so far; output
already buffered may remain and is drained by the reader. -/
def reset (s : Stretcher) : Stretcher :=
  { s with input := [], resets := s.resets + 1 }

/-- The loop `while (available_read() > 0) read_audio(left, right, 64);` of
`process_callback`, the frames read being thrown away. Every iteration removes at
least one frame, so `available_read` iterations are enough. -/
def drainLoop : Nat → Stretcher → Stretcher
  | 0, s => s
  | fuel + 1, s => if s.available_read > 0 then drainLoop fuel (s.read_audio 64).2 else s

/-- The drain loop run to completion. -/
def drain (s : Stretcher) : Stretcher := drainLoop s.available_read s

end Stretcher

/-! ## Engine state -/

/-- The member variables of `Engine` used by the real-time cycle and the control
operations. `sound_recording` and `mono` are the two values read from
`_config`; `buf_L`, `buf_R` are the device output buffers returned by
`_audio_system->output_buffer(0|1)` and `addr_L`, `addr_R` their addresses.
The members `_stretch` and `_pitch` only set the pipeline's transform parameters
(`time_ratio`, `pitch_scale`) and are left out with them. -/
structure Engine where
  sound_recording : Bool
  mono : Bool
  playing : Bool
  hit_end : Bool
  state_changed : Bool
  capturing : Bool
  changed : Bool
  sample_rate : ℚ
  shift : ℚ
  gain : ℚ
  channelCount : Nat
  left : List Sample
  right : List Sample
  left2 : List Sample
  right2 : List Sample
  left3 : List Sample
  right3 : List Sample
  null : List Sample
  position : Nat
  output_position : Nat
  startRecordPosition : Nat
  endRecordPosition : Nat
  stretcher : Stretcher
  buf_L : List Sample
  buf_R : List Sample
  addr_L : Nat
  addr_R : Nat
  deriving DecidableEq, Repr

/-! ## Buffers as memory -/

/-- `memset(buf, 0, nframes * sizeof(float))`: the first `nframes` samples become 0. -/
def zeroFill (buf : List Sample) (nframes : Nat) : List Sample :=
  List.replicate nframes 0 ++ buf.drop nframes

/-- Storing `xs` at the start of `buf`. -/
def store (buf : List Sample) (xs : List Sample) : List Sample :=
  xs ++ buf.drop xs.length

/-- Reading `n` samples of `buf` from index `i` on (a `float*` argument `&buf[i]`
with a count `n`): `none` when one of the `n` samples lies outside the vector. -/
def slice (buf : List Sample) (i n : Nat) : Option (List Sample) :=
  if n = 0 then some []
  else if i + n ≤ buf.length then some ((buf.drop i).take n)
  else none

/-- The statements `buf[k] *= gain` for `start ≤ k < start + count`: `none` when one
of them is outside the buffer. -/
def scaleRange (buf : List Sample) (start count : Nat) (gain : ℚ) : Option (List Sample) :=
  if start + count ≤ buf.length then
    some (buf.take start ++ ((buf.drop start).take count).map (fun x => x * gain)
      ++ buf.drop (start + count))
  else none

/-- `Engine::_zero_buffers`, for non-null output buffers. -/
def zero_buffers (e : Engine) (nframes : Nat) : Engine :=
  { e with buf_L := zeroFill e.buf_L nframes, buf_R := zeroFill e.buf_R nframes }

/-- `apply_gain_to_buffer(buf, nframes, gain)` for a buffer at address `addr`. The
first `switch` multiplies 3, 2 or 1 leading samples for the alignments 4, 8, 12 (the
cases fall through) and decrements `ctr`, an `unsigned`; the vector loop multiplies
`4 * ctr` samples; the second `switch` multiplies 1, 2 or 3 trailing samples; any
alignment other than 0, 4, 8, 12 takes the scalar loop `LAME`. -/
def apply_gain_to_buffer (buf : List Sample) (addr nframes : Nat) (gain : ℚ) :
    Option (List Sample) :=
  let alignment := addr % 16
  let ctr := nframes / 4
  if alignment = 4 ∨ alignment = 8 ∨ alignment = 12 then
    let head := if alignment = 4 then 3 else if alignment = 8 then 2 else 1
    let ctr1 := (ctr + U32 - 1) % U32
    let tail := if alignment = 12 then 3 else if alignment = 8 then 2 else 1
    (scaleRange buf 0 head gain).bind fun b1 =>
    (scaleRange b1 head (4 * ctr1) gain).bind fun b2 =>
    scaleRange b2 (head + 4 * ctr1) tail gain
  else if alignment = 0 then scaleRange buf 0 (4 * ctr) gain
  else scaleRange buf 0 nframes gain

/-! ## The playing cycle: `Engine::_process_playing` -/

/-- The feed decision: `input_frames` (an `int32_t`) is `feed_block_max()` when
`written < feed_block_min()` and `write_space >= feed_block_max()`, else 0. The
counters are compared as the pipeline reports them (their types are declared in the
pipeline's header). -/
def input_quota (s : Stretcher) : Int :=
  if s.written < s.feed_block_min ∧ s.available_write ≥ s.feed_block_max then
    toI32 s.feed_block_max
  else 0

/-- The active source, left channel: `_capturing ? _left2 : _left`. -/
def activeLeft (e : Engine) : List Sample := if e.capturing then e.left2 else e.left

/-- The active source, right channel: `_capturing ? _right2 : _right`. -/
def activeRight (e : Engine) : List Sample := if e.capturing then e.right2 else e.right

/-- The clamp of one iteration of the feed loop, on the numbers alone, for a source of
`len` frames, the cursor `position` (a `size_t` copy of `_position`) and the pending
quota `input_frames`:
`feed = input_frames; if (position + feed > left.size()) { feed = left.size() - position;
input_frames = feed; }`. The sum and the difference are `size_t` operations, `feed` is
a `uint32_t`. The result is `feed` and `input_frames` after the clamp. -/
def feed_clamp (len position : Nat) (input_frames : Int) : Nat × Int :=
  let feed := toU32 input_frames
  if (position + feed) % SIZE > len then
    let feed1 := ((len + SIZE - position % SIZE) % SIZE) % U32
    (feed1, toI32 feed1)
  else (feed, input_frames)

/-- `int shiftInFrames = _shift * _sample_rate;`. -/
def shiftInFrames (e : Engine) : Int := truncQ (e.shift * e.sample_rate)

/-- The two channels that one iteration of the feed loop hands to `write_audio` for
`feed` frames at the cursor `position`: `none` when one of the two reads leaves its
vector. With a positive shift the right channel is read at `position + shiftInFrames`,
with a negative one the left channel at `position - shiftInFrames`, both when that
index is below `left.size()`, and from `_null` otherwise. -/
def feed_channels (e : Engine) (position feed : Nat) :
    Option (List Sample × List Sample) :=
  let left := activeLeft e
  let right := activeRight e
  if e.shift ≠ 0 then
    if e.shift > 0 then
      let idx := (position + toSize (shiftInFrames e)) % SIZE
      let cand := if left.length > idx then slice right idx feed else slice e.null 0 feed
      (slice left position feed).bind fun l => cand.map fun r => (l, r)
    else
      let idx := (position + SIZE - toSize (shiftInFrames e)) % SIZE
      let cand := if left.length > idx then slice left idx feed else slice e.null 0 feed
      cand.bind fun l => (slice right position feed).map fun r => (l, r)
  else
    (slice left position feed).bind fun l => (slice right position feed).map fun r => (l, r)

/-- One iteration of the feed loop `while (input_frames > 0) { ... }`, for a cursor
`_position` kept modulo `pmod` (the member is declared in the header, which is not
under `src/`). The result is the engine after the iteration and the pending quota
`input_frames -= feed` (computed in `uint32_t` and stored in an `int32_t`). -/
def feed_iter (pmod : Nat) (e : Engine) (input_frames : Int) : Option (Engine × Int) :=
  let position := e.position % SIZE
  let c := feed_clamp (activeLeft e).length position input_frames
  (feed_channels e position c.1).map fun lr =>
    ({ e with stretcher := e.stretcher.write_audio lr.1 lr.2,
              position := (e.position + c.1) % pmod },
     toI32 ((toU32 c.2 + U32 - c.1) % U32))

/-- The feed loop. `none` is undefined behaviour in an iteration, or a loop that is
still pending when the fuel is used up. -/
def feed_loop (pmod : Nat) : Nat → Engine → Int → Option Engine
  | 0, e, input_frames => if input_frames > 0 then none else some e
  | fuel + 1, e, input_frames =>
    if input_frames > 0 then
      (feed_iter pmod e input_frames).bind fun p => feed_loop pmod fuel p.1 p.2
    else some e

/-- Reading `count` frames from the pipeline into the start of the output buffers:
`_stretcher.read_audio(buf_L, buf_R, count)`. -/
def read_into (e : Engine) (count : Nat) : Engine :=
  let r := e.stretcher.read_audio count
  { e with stretcher := r.2,
           buf_L := store e.buf_L (r.1.map Prod.fst),
           buf_R := store e.buf_R (r.1.map Prod.snd) }

/-- The pull step, for `read_space = _stretcher.available_read()` sampled after the
feed. -/
def pull (e : Engine) (nframes : Nat) : Engine :=
  let read_space := e.stretcher.available_read
  if read_space ≥ nframes then read_into e nframes
  else if read_space > 0 ∧ e.hit_end = true then read_into (zero_buffers e nframes) read_space
  else zero_buffers e nframes

/-- The estimate of the output position from `n_feed_buf = _stretcher.latency()`. -/
def estimate_output (e : Engine) : Engine :=
  let n_feed_buf := e.stretcher.latency
  if e.position > n_feed_buf then { e with output_position := e.position - n_feed_buf }
  else { e with output_position := 0 }

/-- The gain step: the scalar loop over both buffers when `nframes & 0xf` is not 0,
else `apply_gain_to_buffer` on each of them. -/
def gain_step (e : Engine) (nframes : Nat) : Option Engine :=
  if nframes % 16 ≠ 0 then
    (scaleRange e.buf_L 0 nframes e.gain).bind fun l =>
    (scaleRange e.buf_R 0 nframes e.gain).map fun r => { e with buf_L := l, buf_R := r }
  else
    (apply_gain_to_buffer e.buf_L e.addr_L nframes e.gain).bind fun l =>
    (apply_gain_to_buffer e.buf_R e.addr_R nframes e.gain).map fun r =>
      { e with buf_L := l, buf_R := r }

/-- The end-of-stream step, for the `read_space` sampled before the pull. -/
def end_of_stream (e : Engine) (read_space : Nat) : Engine :=
  let e1 := if e.position ≥ e.left.length then { e with hit_end := true } else e
  if e1.hit_end = true ∧ read_space = 0 then
    { e1 with hit_end := false, playing := false, position := 0,
              stretcher := e1.stretcher.reset }
  else e1

/-- `Engine::_process_playing(nframes)`, for a cursor kept modulo `pmod`. The loop
runs on the quota as fuel. `nudge()` only wakes the pipeline's worker. -/
def process_playing_mod (pmod : Nat) (e : Engine) (nframes : Nat) : Option Engine :=
  let input_frames := input_quota e.stretcher
  (feed_loop pmod input_frames.toNat e input_frames).bind fun e1 =>
    let read_space := e1.stretcher.available_read
    (gain_step (estimate_output (pull e1 nframes)) nframes).map fun e2 =>
      end_of_stream e2 read_space

/-- Modelled from the spec: the width of the members `_position` and
`_output_position`, declared in `Engine.hpp`, which is not under `src/`. The spec
calls them integer frame indices; `locate` assigns them from an `unsigned long`,
which is taken as their type. -/
def POS : Nat := 2 ^ 64

/-- `Engine::_process_playing(nframes)`. -/
def process_playing (e : Engine) (nframes : Nat) : Option Engine :=
  process_playing_mod POS e nframes

/-! ## The real-time cycle: `Engine::process_callback` -/

/-- The block `if (_state_changed) { ... }`: it is not inside `if (locked)`. -/
def consume_state_change (e : Engine) : Engine :=
  if e.state_changed = true then
    { e with state_changed := false,
             stretcher := e.stretcher.reset.drain,
             position := e.output_position }
  else e

/-- `Engine::process_callback(nframes)`; `locked` is the result of `try_lock()`. -/
def process_callback (e : Engine) (locked : Bool) (nframes : Nat) : Option Engine :=
  let e1 := consume_state_change e
  if locked = true then
    if e1.playing = true then
      if e1.left.length ≠ 0 then process_playing e1 nframes
      else some { e1 with playing := false }
    else some (zero_buffers e1 nframes)
  else some (zero_buffers e1 nframes)

/-! ## Transport -/

/-- `Engine::play`. -/
def play (e : Engine) : Engine :=
  if e.playing = false then { e with state_changed := true, playing := true } else e

/-- `Engine::play_pause`. -/
def play_pause (e : Engine) : Engine :=
  { e with playing := (if e.playing = true then false else true), state_changed := true }

/-- `Engine::stop`. -/
def stop (e : Engine) : Engine :=
  if e.playing = true then { e with playing := false, state_changed := true } else e

/-- `Engine::get_position`: `float(_output_position) / _sample_rate`, the conversion
of the cursor to `float` and a division of `float`s, returned as `float`; `none` when
the quotient is not a finite number. The member `_sample_rate` is declared in
`Engine.hpp`, which is not under `src/`; it is taken as a `float`, as the
expressions that use it are (`float time_ratio = srate / _sample_rate / _stretch`). -/
def get_position (e : Engine) : Option ℚ :=
  if e.left.length > 0 then
    fdiv binary32 (rn binary32 (e.output_position : ℚ)) e.sample_rate
  else some 0

/-- `Engine::get_position` if the member `_sample_rate` were a `double`: the division
is then one of `double`s and its result is converted to the `float` returned. -/
def get_position_double (e : Engine) : Option ℚ :=
  if e.left.length > 0 then
    (fdiv binary64 (rn binary32 (e.output_position : ℚ)) e.sample_rate).bind fun q =>
      finite binary32 (rn binary32 q)
  else some 0

/-- `Engine::get_length`: `float(_left.size()) / _sample_rate`. -/
def get_length (e : Engine) : Option ℚ :=
  if e.left.length > 0 then
    fdiv binary32 (rn binary32 (e.left.length : ℚ)) e.sample_rate
  else some 0

/-- `Engine::locate(secs)`: `unsigned long pos = secs * _sample_rate;`, the product
of two `double`s, rounded to a `double` and truncated toward zero, and both cursors
are set to it. `none` when the truncated product is outside the range of
`unsigned long` (negative, or `2^64` and above, an infinity included): the
conversion is then undefined. -/
def locate (e : Engine) (secs : ℚ) : Option Engine :=
  let pos := truncQ (rn binary64 (secs * e.sample_rate))
  if 0 ≤ pos ∧ pos < (ULONG : Int) then
    some { e with output_position := pos.toNat % POS, position := pos.toNat % POS,
                  state_changed := true, stretcher := e.stretcher.reset }
  else none

/-- The position query as the spec words it, in exact arithmetic:
`output_position / source_sample_rate` seconds, and 0 when no buffer is loaded. -/
def get_position_exact (e : Engine) : ℚ :=
  if e.left.length > 0 then (e.output_position : ℚ) / e.sample_rate else 0

/-- The seek as the spec words it, in exact arithmetic: the seconds are converted to a
frame index, the exact product `secs × sample_rate` truncated, both cursors are set
to it, `state_changed` is set and the pipeline is reset. -/
def locate_exact (e : Engine) (secs : ℚ) : Engine :=
  let pos := (truncQ (secs * e.sample_rate)).toNat % POS
  { e with output_position := pos, position := pos, state_changed := true,
           stretcher := e.stretcher.reset }

/-! ## Recording -/

/-- The conversion of recording bounds from milliseconds to frames:
`startPos * _sample_rate / 1000`, stored in an unsigned integer member. -/
def msToFrames (e : Engine) (ms : Nat) : Nat :=
  (truncQ ((ms : ℚ) * e.sample_rate / 1000)).toNat

/-- `std::vector<float>(v.begin(), v.begin() + n)`: `none` when `n` is beyond the end. -/
def rangeTo (v : List Sample) (n : Nat) : Option (List Sample) :=
  if n ≤ v.length then some (v.take n) else none

/-- `std::vector<float>(v.begin() + n, v.end())`: `none` when `n` is beyond the end. -/
def rangeFrom (v : List Sample) (n : Nat) : Option (List Sample) :=
  if n ≤ v.length then some (v.drop n) else none

/-- The `else` branch shared by the two forms of `start_recording`, once the two
bounds are computed: the four copies and `_capturing = true`. -/
def begin_capture (e : Engine) (startPos endPos : Nat) : Option Engine :=
  (rangeTo e.left startPos).bind fun l2 =>
  (rangeTo e.right startPos).bind fun r2 =>
  (rangeFrom e.left endPos).bind fun l3 =>
  (rangeFrom e.right endPos).map fun r3 =>
    { e with startRecordPosition := startPos, endRecordPosition := endPos,
             left2 := l2, right2 := r2, left3 := l3, right3 := r3, capturing := true }

/-- `Engine::start_recording(startPos)`. -/
def start_recording1 (e : Engine) (startPos : Nat) : Option Engine :=
  if e.sound_recording = false then some e
  else if e.capturing = true then some e
  else begin_capture e (msToFrames e startPos) e.left.length

/-- `Engine::start_recording(startPos, stopPos)`. -/
def start_recording (e : Engine) (startPos stopPos : Nat) : Option Engine :=
  if e.sound_recording = false then some e
  else if e.capturing = true then some e
  else begin_capture e (msToFrames e startPos) (msToFrames e stopPos)

/-- `Engine::stop_recording(p_reflectChangesInFile)`. -/
def stop_recording (e : Engine) (p_reflectChangesInFile : Bool) : Engine :=
  if e.sound_recording = false then e
  else
    let e1 := if p_reflectChangesInFile = true then
        { e with left := e.left2 ++ e.left3, right := e.right2 ++ e.right3 }
      else e
    { e1 with capturing := false, changed := true }

/-- The loop of `process_callback_capture`: `k` iterations are left and `i` is the
loop index; `input` is the device input buffer. -/
def capture_loop (input : List Sample) : Nat → Nat → Engine → Option Engine
  | 0, _, e => some e
  | k + 1, i, e =>
    (input.get? i).bind fun x =>
      capture_loop input k (i + 1) { e with left2 := e.left2 ++ [x], right2 := e.right2 ++ [x] }

/-- `Engine::process_callback_capture(nframes)`, for the device input buffer `input`. -/
def process_callback_capture (e : Engine) (input : List Sample) (nframes : Nat) :
    Option Engine :=
  if e.capturing = true then capture_loop input nframes 0 e else some e

/-- A sequence of capture callbacks, each with its input buffer and frame count. -/
def capture_all : List (List Sample × Nat) → Engine → Option Engine
  | [], e => some e
  | cb :: cbs, e => (process_callback_capture e cb.1 cb.2).bind (capture_all cbs)

/-- The frames that a sequence of capture callbacks delivers, in arrival order. -/
def delivered (cbs : List (List Sample × Nat)) : List Sample :=
  (cbs.map fun cb => cb.1.take cb.2).flatten

/-! ## Loading -/

/-- What libsndfile (an external library) answers for a file: the fields of `SF_INFO`
and the successive non-empty results of `sf_read_float`. -/
structure SndFile where
  samplerate : Nat
  frames : Nat
  channels : Nat
  reads : List (List Sample)
  deriving DecidableEq, Repr

/-- The `for` loop over one buffer read by `sf_read_float`, from index `k` on. -/
def sndfile_chunk (channels : Nat) :
    List Sample → Nat → List Sample × List Sample → List Sample × List Sample
  | [], _, lr => lr
  | x :: xs, k, lr =>
    let mod := k % channels
    let lr1 :=
      if mod = 0 then (lr.1 ++ [x], if channels = 1 then lr.2 ++ [x] else lr.2)
      else if mod = 1 then (lr.1, lr.2 ++ [x])
      else lr
    sndfile_chunk channels xs (k + 1) lr1

/-- `_null.resize(n, 0.f)`. -/
def resize (v : List Sample) (n : Nat) : List Sample :=
  v.take n ++ List.replicate (n - v.length) 0

/-- `Engine::_load_song_using_libsndfile`; `sf` is `none` when `sf_open` fails. -/
def load_song_using_libsndfile (e : Engine) (sf : Option SndFile) : Bool × Engine :=
  match sf with
  | none => (false, e)
  | some f =>
    let e1 := { e with sample_rate := (f.samplerate : ℚ), null := resize e.null f.frames }
    if f.frames = 0 then (false, e1)
    else
      let lr := f.reads.foldl (fun lr buf => sndfile_chunk f.channels buf 0 lr)
        (e1.left, e1.right)
      (true, { e1 with channelCount := f.channels, left := lr.1, right := lr.2 })

/-- The result code of the `mpg123_read` call that ends the read loop. -/
inductive Mpg123End where
  | DONE
  | NEED_MORE
  | ERR
  | other
  deriving DecidableEq, Repr

/-- What libmpg123 (an external library) answers for a file: whether the file opens
and reports its format, the format, `mpg123_length`, the samples of the reads that
return `MPG123_OK`, and the code and samples of the read that ends the loop. -/
structure Mpg123File where
  opened : Bool
  rate : Nat
  channels : Nat
  signed_16 : Bool
  length : Int
  reads : List (List Int)
  last : Mpg123End × List Int
  deriving DecidableEq, Repr

/-- The `for` loop over the samples of one `mpg123_read`, from index `k` on. -/
def mpg123_chunk (channels : Nat) :
    List Int → Nat → List Sample × List Sample → List Sample × List Sample
  | [], _, lr => lr
  | x :: xs, k, lr =>
    let mod := k % channels
    let l1 := if mod = 0 then lr.1 ++ [(x : ℚ) / 32768] else lr.1
    let r1 := if mod = 1 ∨ channels = 1 then lr.2 ++ [(x : ℚ) / 32768] else lr.2
    mpg123_chunk channels xs (k + 1) (l1, r1)

/-- `Engine::_load_song_using_libmpg123`. -/
def load_song_using_libmpg123 (e : Engine) (f : Mpg123File) : Bool × Engine :=
  if f.opened = false then (false, e)
  else if f.signed_16 = false then (false, e)
  else
    let e1 := { e with channelCount := f.channels }
    if f.length = -1 ∨ f.length = 0 then (false, e1)
    else
      let e2 := { e1 with sample_rate := (f.rate : ℚ) }
      let lr := f.reads.foldl (fun lr buf => mpg123_chunk f.channels buf 0 lr)
        (e2.left, e2.right)
      match f.last.1 with
      | Mpg123End.DONE =>
        let lr1 := mpg123_chunk f.channels f.last.2 0 lr
        (true, { e2 with left := lr1.1, right := lr1.2 })
      | Mpg123End.NEED_MORE => (true, { e2 with left := lr.1, right := lr.2 })
      | _ => (false, { e2 with left := lr.1, right := lr.2 })

/-- The loop of `load_song` that averages the two channels, index by index: `none`
when `_right` is shorter than `_left`. -/
def mono_mix : List Sample → List Sample → Option (List Sample × List Sample)
  | [], r => some ([], r)
  | _ :: _, [] => none
  | x :: l, y :: r => (mono_mix l r).map fun p => ((x + y) / 2 :: p.1, (x + y) / 2 :: p.2)

/-- The start of `load_song`: `stop()`, both buffers cleared, both cursors 0, the
pipeline reset. -/
def unload (e : Engine) : Engine :=
  { stop e with left := [], right := [], position := 0, output_position := 0,
                stretcher := (stop e).stretcher.reset }

/-- `Engine::load_song(filename, forWriting)`, for the answers `sf` and `mp3` of the
two libraries for `filename`. -/
def load_song (e : Engine) (forWriting : Bool) (sf : Option SndFile) (mp3 : Mpg123File) :
    Option (Bool × Engine) :=
  let e0 := unload e
  let r :=
    if forWriting = true then load_song_using_libsndfile e0 sf
    else
      let r1 := load_song_using_libsndfile e0 sf
      if r1.1 = true then r1 else load_song_using_libmpg123 r1.2 mp3
  if r.1 = true ∧ r.2.channelCount > 1 ∧ r.2.mono = true then
    (mono_mix r.2.left r.2.right).map fun p => (r.1, { r.2 with left := p.1, right := p.2 })
  else some r

/-! ## Example states -/

/-- A small pipeline: room for 16 input frames, feed blocks of 2 to 8 frames, a
latency of 1 frame, nothing buffered. -/
def ex_stretcher : Stretcher :=
  { capacity := 16, feed_block_min := 2, feed_block_max := 8, latency := 1,
    input := [], output := [], resets := 0 }

/-- An engine as constructed, before any file is loaded. The device output buffers
hold four frames left over from before (the value 1). -/
def ex_blank : Engine :=
  { sound_recording := true, mono := false, playing := false, hit_end := false,
    state_changed := false, capturing := false, changed := false,
    sample_rate := 48000, shift := 0, gain := 1, channelCount := 0,
    left := [], right := [], left2 := [], right2 := [], left3 := [], right3 := [],
    null := [], position := 0, output_position := 0,
    startRecordPosition := 0, endRecordPosition := 0,
    stretcher := ex_stretcher,
    buf_L := [1, 1, 1, 1], buf_R := [1, 1, 1, 1], addr_L := 0, addr_R := 0 }

/-- A mono file of 4 frames at 2 Hz, read in two buffers. -/
def ex_file : SndFile :=
  { samplerate := 2, frames := 4, channels := 1, reads := [[1, 2], [3, 4]] }

/-- A file that libmpg123 cannot open. -/
def ex_nomp3 : Mpg123File :=
  { opened := false, rate := 0, channels := 0, signed_16 := false, length := 0,
    reads := [], last := (Mpg123End.ERR, []) }

/-- The engine `ex_blank` after `load_song` of `ex_file`. -/
def ex_loaded : Engine :=
  { ex_blank with
    sample_rate := 2, channelCount := 1,
    left := [1, 2, 3, 4], right := [1, 2, 3, 4], null := [0, 0, 0, 0],
    stretcher := { ex_stretcher with resets := 1 } }

/-- The loaded engine in the middle of playback: cursor at frame 3, one frame of
latency behind it. -/
def ex_playing : Engine :=
  { ex_loaded with playing := true, position := 3, output_position := 2 }

/-- The engine `ex_playing` after `start_recording(500, 2000)`: the punch range
starts at frame 1, behind the cursor at frame 3. -/
def ex_punch : Engine :=
  { ex_playing with
    capturing := true, startRecordPosition := 1, endRecordPosition := 4,
    left2 := [1], right2 := [1], left3 := [], right3 := [] }

/-- The loaded engine with a shift of half a second to the negative side, which is
one frame at 2 Hz, and the cursor at frame 1. -/
def ex_shift : Engine :=
  { ex_loaded with shift := -1 / 2, position := 1, output_position := 1 }

/-- A loaded engine with a 5-second buffer at 2 Hz: 10 frames. -/
def ex_five : Engine :=
  { ex_loaded with
    left := [1, 2, 3, 4, 5, 6, 7, 8, 9, 10], right := [1, 2, 3, 4, 5, 6, 7, 8, 9, 10],
    null := [0, 0, 0, 0, 0, 0, 0, 0, 0, 0] }

/-- Two capture callbacks delivering 2 frames and 1 frame: 1.5 seconds at 2 Hz. -/
def ex_takes : List (List Sample × Nat) := [([21, 22], 2), ([23], 1)]

/-- The engine `ex_playing` after a `load_song` that failed to open its file. -/
def ex_unloaded : Engine :=
  { ex_playing with
    playing := false, state_changed := true, left := [], right := [],
    position := 0, output_position := 0,
    stretcher := { ex_stretcher with resets := 2 } }

/-- A mono MP3 file of announced length 4 whose first read succeeds with one sample
and whose second read reports an error. -/
def ex_badmp3 : Mpg123File :=
  { opened := true, rate := 2, channels := 1, signed_16 := true, length := 4,
    reads := [[16384]], last := (Mpg123End.ERR, []) }

/-- A run of process cycles that all fail to acquire the lock, each with its frame
count. -/
def unlocked_cycles : List Nat → Engine → Option Engine
  | [], e => some e
  | n :: ns, e => (process_callback e false n).bind (unlocked_cycles ns)

/-- The states between a `locate` of the engine `e0` to frame `pos` and the next
cycle that acquires the lock: both cursors are at `pos`, and the state change is
still pending, or was consumed by a cycle without the lock, which left the pipeline
empty. -/
def SeekPending (pos : Nat) (e0 x : Engine) : Prop :=
  x.position = pos ∧ x.output_position = pos ∧ x.playing = e0.playing ∧
  x.left = e0.left ∧
  (x.state_changed = true ∨
    (x.state_changed = false ∧ x.stretcher.input = [] ∧ x.stretcher.output = []))

/-- The invariant kept by the recording operations: the two main channels have equal
length, and so have the two capture buffers and the two post buffers, unless
recording is disabled and not in progress, when the capture and post buffers are
never used. -/
def Paired (x : Engine) : Prop :=
  x.left.length = x.right.length ∧
  ((x.left2.length = x.right2.length ∧ x.left3.length = x.right3.length) ∨
    (x.capturing = false ∧ x.sound_recording = false))

/-- The gain step as the spec words it, a per-sample scalar multiply: each of the
first `nframes` samples is multiplied by `gain` once and the samples after them are
left as they are. -/
def gain_spec (buf : List Sample) (nframes : Nat) (gain : ℚ) : List Sample :=
  (buf.take nframes).map (fun x => x * gain) ++ buf.drop nframes

/-- An engine whose output buffers hold 16 frames, at addresses 4 and 8 bytes past a
16-byte boundary, with a gain of 2. -/
def ex_gain : Engine :=
  { ex_loaded with
    gain := 2,
    buf_L := [1, 2, 3, 4, 5, 6, 7, 8, 9, 10, 11, 12, 13, 14, 15, 16],
    buf_R := [1, 1, 1, 1, 1, 1, 1, 1, 1, 1, 1, 1, 1, 1, 1, 1],
    addr_L := 4, addr_R := 8 }

/-- The engine `ex_shift` (shift of -1 frame, cursor at frame 1 of 4) while playing. -/
def ex_shift_playing : Engine := { ex_shift with playing := true }

/-- The same engine with the shift to the positive side: +1 frame. -/
def ex_shift_positive : Engine := { ex_shift_playing with shift := 1 / 2 }

/-- A loaded engine with an 8-second buffer at 2 Hz: 16 frames. -/
def ex_long : Engine :=
  { ex_loaded with
    left := [1, 2, 3, 4, 5, 6, 7, 8, 9, 10, 11, 12, 13, 14, 15, 16],
    right := [1, 2, 3, 4, 5, 6, 7, 8, 9, 10, 11, 12, 13, 14, 15, 16],
    null := [0, 0, 0, 0, 0, 0, 0, 0, 0, 0, 0, 0, 0, 0, 0, 0] }

/-- The 16-frame engine in the middle of playback: cursor at frame 3, frame 3 pushed
into the pipeline and not yet consumed, frames 1 and 2 transformed and waiting to be
read. -/
def ex_seek : Engine :=
  { ex_long with
    playing := true, position := 3, output_position := 2,
    stretcher := { ex_stretcher with resets := 1, input := [(3, 3)],
                                     output := [(1, 1), (2, 2)] } }

/-- The 16-frame engine at 48 kHz with its output position at frame 8. -/
def ex_48k : Engine :=
  { ex_long with sample_rate := 48000, position := 9, output_position := 8 }

/-- The same engine after a seek that put both cursors at frame 33554435, which is
2^25 + 3. -/
def ex_48k_far : Engine :=
  { ex_48k with position := 33554435, output_position := 33554435, state_changed := true }

/-- The `double` nearest to 1/48000, written 2.0833333333333333e-05: it is
6148914691236517 / 2^68, a little below 1/48000. -/
def secs_frame1 : ℚ := 6148914691236517 / 295147905179352825856

/-! ## The configuration parser: `src/PipesConfParser.cpp` -/

namespace PipesConfParser

/-- Modelled from the spec: the enumeration `State::S` of `PipesConfParser.hpp`, which
is not under `src/` (the spec leaves the parser out of its scope). Its values are
the fifteen states that `parseTick` and `parse` name. -/
inductive S where
  | Init
  | IntoGlobalObject
  | KeyStarting
  | KeyValueSeparator
  | ValuePlaybackStarting
  | ValueCaptureStarting
  | ValueRemote
  | ValuePlayback
  | ValueCapture
  | ValuePlaybackTilda
  | ValueCaptureTilda
  | ValuePlaybackDollar
  | ValueCaptureDollar
  | ValueFinished
  | Finished
  deriving DecidableEq, Repr

/-- Modelled from the spec: the structure `State` of `PipesConfParser.hpp`, with the
members that `parseTick` reads and writes: the state `s` and the strings `key` and
`value`. -/
structure State where
  s : S
  key : String
  value : String
  deriving DecidableEq, Repr

/-- Modelled from the spec: the enumeration `Error` of `PipesConfParser.hpp`, in the
order of the table `ERROR_CODE_DESCRIPTIONS` that `error()` indexes with it. -/
inductive Error where
  | NoError
  | SystaxError
  | CanNotOpenFile
  | IncompleteFile
  deriving DecidableEq, Repr

/-- The conversion `static_cast<int>` of an error code. -/
def Error.toInt : Error → Int
  | Error.NoError => 0
  | Error.SystaxError => 1
  | Error.CanNotOpenFile => 2
  | Error.IncompleteFile => 3

/-- The double quote character. -/
def dquote : Char := Char.ofNat 34

/-- The opening brace character. -/
def lbrace : Char := Char.ofNat 123

/-- `isWhitespaceSymbol`. -/
def isWhitespaceSymbol (byte : Char) : Bool :=
  if byte = ' ' ∨ byte = '\t' ∨ byte = '\r' ∨ byte = '\n' then true else false

/-- `isFilenameSymbol`. -/
def isFilenameSymbol (byte : Char) : Bool :=
  if byte ≥ ',' ∧ byte ≤ '9' then true
  else if byte ≥ 'A' ∧ byte ≤ 'Z' then true
  else if byte ≥ 'a' ∧ byte ≤ 'z' then true
  else false

/-- `PipesConfParser::initParse`: `_state = State()`, the state `Init` with an empty
key and value. -/
def initParse : State := { s := S.Init, key := "", value := "" }

/-- `PipesConfParser::parseTick(byte)`: the state afterwards and the error code
returned. A `return Error::SystaxError` leaves the state as it is; the output on
`std::cout` is left out. The chain of `if`s has no branch for `Finished`. -/
def parseTick (st : State) (byte : Char) : State × Error :=
  match st.s with
  | S.Init =>
    if isWhitespaceSymbol byte = true then (st, Error.NoError)
    else if byte = lbrace then ({ st with s := S.IntoGlobalObject }, Error.NoError)
    else (st, Error.SystaxError)
  | S.IntoGlobalObject =>
    if isWhitespaceSymbol byte = true then (st, Error.NoError)
    else if byte = dquote then ({ st with s := S.KeyStarting, key := "" }, Error.NoError)
    else (st, Error.SystaxError)
  | S.KeyStarting =>
    if byte = dquote then ({ st with s := S.KeyValueSeparator }, Error.NoError)
    else if isFilenameSymbol byte = true then
      ({ st with key := st.key.push byte }, Error.NoError)
    else (st, Error.SystaxError)
  | S.KeyValueSeparator =>
    if isWhitespaceSymbol byte = true then (st, Error.NoError)
    else if byte = ':' then
      if st.key = "playback" then ({ st with s := S.ValuePlaybackStarting }, Error.NoError)
      else if st.key = "capture" then
        ({ st with s := S.ValueCaptureStarting }, Error.NoError)
      else if st.key = "remote" then ({ st with s := S.ValueRemote }, Error.NoError)
      else (st, Error.SystaxError)
    else (st, Error.SystaxError)
  | S.ValuePlaybackStarting =>
    if byte = dquote then ({ st with s := S.ValuePlayback, value := "" }, Error.NoError)
    else if isWhitespaceSymbol byte = true then (st, Error.NoError)
    else (st, Error.SystaxError)
  | S.ValueCaptureStarting =>
    if byte = dquote then ({ st with s := S.ValueCapture, value := "" }, Error.NoError)
    else if isWhitespaceSymbol byte = true then (st, Error.NoError)
    else (st, Error.SystaxError)
  | S.ValueRemote => (st, Error.NoError)
  | S.ValuePlayback =>
    if byte = dquote then ({ st with s := S.ValueFinished }, Error.NoError)
    else if isFilenameSymbol byte = true then
      ({ st with value := st.value.push byte }, Error.NoError)
    else if byte = '~' ∧ st.value.length = 0 then
      ({ st with s := S.ValuePlaybackTilda }, Error.NoError)
    else if byte = '$' then ({ st with s := S.ValuePlaybackDollar }, Error.NoError)
    else (st, Error.NoError)
  | S.ValueCapture => (st, Error.NoError)
  | S.ValuePlaybackTilda =>
    if byte = dquote then ({ st with s := S.ValueFinished }, Error.NoError)
    else if byte = '/' then
      ({ st with value := st.value ++ "/home/boris/", s := S.ValuePlayback }, Error.NoError)
    else if isFilenameSymbol byte = true then
      ({ st with value := (st.value.push '~').push byte }, Error.NoError)
    else if byte = '$' then
      ({ st with value := st.value.push '~', s := S.ValuePlaybackDollar }, Error.NoError)
    else (st, Error.NoError)
  | S.ValueCaptureTilda => (st, Error.NoError)
  | S.ValuePlaybackDollar => (st, Error.NoError)
  | S.ValueCaptureDollar => (st, Error.NoError)
  | S.ValueFinished =>
    if st.key = "playback" then (st, Error.NoError)
    else if st.key = "capture" then (st, Error.NoError)
    else if st.key = "remote" then (st, Error.NoError)
    else (st, Error.SystaxError)
  | S.Finished => (st, Error.NoError)

/-- The loop `for (char i : buffer)` of `parse`: every byte of the buffer goes through
`parseTick`, and the first error code that is not 0 ends the loop and `parse`. -/
def parseBuffer : State → List Char → State × Error
  | st, [] => (st, Error.NoError)
  | st, b :: bs =>
    match parseTick st b with
    | (st1, Error.NoError) => parseBuffer st1 bs
    | r => r

/-- The loop `while (int result = read(fd, buffer, bufferSize))` of `parse`, for the
successive contents of `buffer` after the reads with a positive result. -/
def parseReads : State → List (List Char) → State × Error
  | st, [] => (st, Error.NoError)
  | st, buf :: rest =>
    match parseBuffer st buf with
    | (st1, Error.NoError) => parseReads st1 rest
    | r => r

/-- `PipesConfParser::parse(filepath)`: `fd` is what `open` returns, `reads` are the
contents of `buffer` after each read with a positive result, and `readFailed` tells
whether the read that ends the loop returned a negative value (`return false`, which
is 0) or 0, the end of the file. -/
def parse (fd : Int) (reads : List (List Char)) (readFailed : Bool) : Int :=
  if fd = 0 then Error.CanNotOpenFile.toInt
  else
    let r := parseReads initParse reads
    if r.2 ≠ Error.NoError then r.2.toInt
    else if readFailed = true then 0
    else if r.1.s ≠ S.Finished then Error.IncompleteFile.toInt
    else 0

/-- The sample configuration of the header comment of `PipesConfParser.cpp`. -/
def sample : String :=
  "\x7b\n\t\"playback\" : \"/home/$\x7buser\x7d/sound/playback\",\n\t\"capture\": \"~/sound/capture\",\n\t\"remote\": false\n\x7d\n"

end PipesConfParser

/-! # Theorems -/

/-! ## Auxiliary facts -/

/-- The example engine `ex_loaded` is what `load_song` makes of `ex_blank` and `ex_file`. -/
theorem ex_loaded_by_load_song :
    load_song ex_blank false (some ex_file) ex_nomp3 = some (true, ex_loaded) := by
  decide!

/-- The drain loop empties the output queue and touches nothing else, given fuel for
every buffered frame. -/
theorem drainLoop_eq (fuel : Nat) (s : Stretcher) (h : s.output.length ≤ fuel) :
    Stretcher.drainLoop fuel s = { s with output := [] } := by
  induction fuel generalizing s with
  | zero =>
    have h0 : s.output = [] := List.length_eq_zero.mp (Nat.le_zero.mp h)
    cases s
    simp only [Stretcher.drainLoop] at *
    simp [h0]
  | succ k ih =>
    unfold Stretcher.drainLoop
    by_cases hr : s.available_read > 0
    · rw [if_pos hr]
      have hlen : (s.read_audio 64).2.output.length ≤ k := by
        simp only [Stretcher.read_audio, List.length_drop]
        simp only [Stretcher.available_read] at hr
        omega
      rw [ih _ hlen]
      simp [Stretcher.read_audio]
    · rw [if_neg hr]
      have h0 : s.output = [] := by
        simp only [Stretcher.available_read, gt_iff_lt, not_lt, Nat.le_zero] at hr
        exact List.length_eq_zero.mp hr
      cases s
      simp only at h0
      simp [h0]

/-- The drain loop run on `available_read` fuel ends with `available_read() == 0`. -/
theorem drain_eq (s : Stretcher) : s.drain = { s with output := [] } :=
  drainLoop_eq _ s (Nat.le_refl _)

/-- The pipeline after `reset()` and the drain loop: no input, no output, one more reset. -/
theorem reset_drain_eq (s : Stretcher) :
    s.reset.drain = { s with input := [], output := [], resets := s.resets + 1 } := by
  rw [drain_eq]
  rfl

/-! ## C1 -/

/-- C1 (the code leaves one case unwritten): on an engine with no file loaded on
which `play()` was called, a cycle that acquires the lock only clears `playing`; the
four frames left in both output buffers from before are still there afterwards, not
zeros, although the two sibling branches (not playing, lock not acquired) zero them. -/
theorem C1_empty_buffer_cycle_writes_nothing :
    (play ex_blank).playing = true ∧ (play ex_blank).left = [] ∧
    (process_callback (play ex_blank) true 4).map
        (fun e => (e.buf_L, e.buf_R, e.playing))
      = some ([1, 1, 1, 1], [1, 1, 1, 1], false) ∧
    (process_callback ex_blank true 4).map (fun e => (e.buf_L, e.buf_R))
      = some ([0, 0, 0, 0], [0, 0, 0, 0]) ∧
    (process_callback (play ex_blank) false 4).map (fun e => (e.buf_L, e.buf_R))
      = some ([0, 0, 0, 0], [0, 0, 0, 0]) := by
  decide

/-! ## C2 -/

/-- C2, counterexample: `stop()` during playback sets `state_changed`; the next
cycle fails to acquire the lock and still clears `state_changed`, moves `position`
from 3 to `output_position` = 2 and resets the pipeline. -/
theorem C2_unlocked_cycle_consumes_state_change :
    ((stop ex_playing).state_changed, (stop ex_playing).position,
      (stop ex_playing).stretcher.resets) = (true, 3, 1) ∧
    (process_callback (stop ex_playing) false 4).map
        (fun e => (e.state_changed, e.position, e.stretcher.resets))
      = some (false, 2, 2) := by
  decide

/-- C2 (amended): a cycle that fails to acquire the lock always returns, writes
silence to both output buffers, and leaves `playing`, `hit_end`, `output_position`
and the main buffers unchanged. `state_changed` is false afterwards in every case:
when it was false, `position` and the pipeline are unchanged too; when it was true
it is consumed without the lock, the pipeline is reset and drained and `position`
becomes `output_position`. -/
theorem C2_unlocked_cycle (e : Engine) (nframes : Nat) :
    ∃ e1, process_callback e false nframes = some e1 ∧
      e1.playing = e.playing ∧ e1.hit_end = e.hit_end ∧
      e1.output_position = e.output_position ∧
      e1.left = e.left ∧ e1.right = e.right ∧
      e1.buf_L = List.replicate nframes 0 ++ e.buf_L.drop nframes ∧
      e1.buf_R = List.replicate nframes 0 ++ e.buf_R.drop nframes ∧
      e1.state_changed = false ∧
      e1.position = (if e.state_changed = true then e.output_position else e.position) ∧
      e1.stretcher = (if e.state_changed = true then
          { e.stretcher with input := [], output := [], resets := e.stretcher.resets + 1 }
        else e.stretcher) := by
  refine ⟨zero_buffers (consume_state_change e) nframes, ?_, ?_⟩
  · simp [process_callback]
  · cases hs : e.state_changed <;>
      simp [zero_buffers, consume_state_change, hs, zeroFill, reset_drain_eq]

/-! ## C3 -/

/-- C3 (the code breaks the invariant): on the freshly loaded 4-frame engine,
`play()` and one cycle with the lock acquired feed the whole file, estimate
`output_position` = 4 - 1 = 3 and, the pipeline having no output yet, auto-stop and
reset `position` to 0 without resetting `output_position`: afterwards
`output_position` = 3 is above `position` = 0 and is not
max(0, `position` - latency) = 0. -/
theorem C3_autostop_leaves_output_position_ahead :
    (process_callback (play ex_loaded) true 4).map
        (fun e => (e.position, e.output_position, e.stretcher.latency, e.playing))
      = some (0, 3, 1, false) := by
  decide

/-! ## C6 -/

/-- C6 (the code does not rewind the reported position): the playing engine with
its cursor at frame 3 of 4 feeds the last frame, auto-stops in that cycle and is
Stopped, but `get_position()` afterwards is 3 frames / 2 Hz = 1.5 s, not 0, while
`position` itself is 0. -/
theorem C6_autostop_get_position_not_zero :
    (process_callback ex_playing true 4).map
        (fun e => (e.playing, e.hit_end, e.position, get_position e))
      = some (false, false, 0, some (3 / 2)) := by
  decide!

/-! ## C7 -/

/-- C7 (the code stops before the pipeline has drained): in the first cycle after
`play()` on the 4-frame engine the feed loop pushes all 4 source frames into the
pipeline, and the same cycle, seeing no output buffered yet, stops playback, clears
`hit_end` and resets the pipeline, which discards the 4 frames just pushed. -/
theorem C7_autostop_discards_frames_just_fed :
    (feed_loop POS 8 (consume_state_change (play ex_loaded)) 8).map
        (fun e => (e.stretcher.input, e.stretcher.resets))
      = some ([(1, 1), (2, 2), (3, 3), (4, 4)], 2) ∧
    input_quota (consume_state_change (play ex_loaded)).stretcher = 8 ∧
    (process_playing (consume_state_change (play ex_loaded)) 4).map
        (fun e => (e.playing, e.hit_end, e.stretcher.input, e.stretcher.resets))
      = some (false, false, [], 3) := by
  decide

/-! ## C8 -/

/-- C8 (the clamp wraps around): recording started at frame 1 while the cursor is at
frame 3 makes the capture buffer, of length 1, the active source. The clamp then
computes `feed` = (1 - 3) mod 2^32 = 4294967294 frames, where 0 frames remain; the
read of that many frames from index 3 leaves the vector, so the cycle has no defined
result; and the cursor would advance to 4294967297, beyond the source's end, with a
64-bit cursor (with a 32-bit one it would wrap to 1). -/
theorem C8_feed_clamp_wraps_behind_cursor :
    start_recording ex_playing 500 2000 = some ex_punch ∧
    (activeLeft ex_punch).length = 1 ∧ ex_punch.position = 3 ∧
    input_quota ex_punch.stretcher = 8 ∧
    feed_clamp (activeLeft ex_punch).length ex_punch.position 8 = (4294967294, -2) ∧
    (ex_punch.position + 4294967294) % POS = 4294967297 ∧
    (ex_punch.position + 4294967294) % U32 = 1 ∧
    feed_iter POS ex_punch 8 = none ∧ feed_iter U32 ex_punch 8 = none ∧
    process_callback ex_punch true 4 = none := by
  decide!

/-! ## C9 -/

/-- C10: the pull step of a playing cycle requesting `nframes` frames, with `r` the
pipeline's `available_read` sampled just before it. If `r ≥ nframes`, exactly
`nframes` frames, the oldest buffered, are read into the start of both output
buffers and removed from the pipeline. If `r < nframes` and `hit_end` is set, the
buffers are zeroed and all `r` buffered frames are read into their first `r` frames,
frames `r .. nframes-1` being zero. Otherwise nothing is read, the pipeline is
unchanged and all `nframes` output frames are zero. -/
theorem C10_pull (e : Engine) (nframes : Nat) :
    (pull e nframes).buf_L =
      (if e.stretcher.available_read ≥ nframes then
        (e.stretcher.output.take nframes).map Prod.fst ++ e.buf_L.drop nframes
      else if e.hit_end = true then
        e.stretcher.output.map Prod.fst
          ++ List.replicate (nframes - e.stretcher.available_read) 0
          ++ e.buf_L.drop nframes
      else List.replicate nframes 0 ++ e.buf_L.drop nframes) ∧
    (pull e nframes).buf_R =
      (if e.stretcher.available_read ≥ nframes then
        (e.stretcher.output.take nframes).map Prod.snd ++ e.buf_R.drop nframes
      else if e.hit_end = true then
        e.stretcher.output.map Prod.snd
          ++ List.replicate (nframes - e.stretcher.available_read) 0
          ++ e.buf_R.drop nframes
      else List.replicate nframes 0 ++ e.buf_R.drop nframes) ∧
    (pull e nframes).stretcher.output =
      (if e.stretcher.available_read ≥ nframes then e.stretcher.output.drop nframes
      else if e.hit_end = true then []
      else e.stretcher.output) ∧
    e.stretcher.output.length - (pull e nframes).stretcher.output.length =
      (if e.stretcher.available_read ≥ nframes then nframes
      else if e.hit_end = true then e.stretcher.available_read
      else 0) := by
  simp only [pull, Stretcher.available_read]
  by_cases h1 : e.stretcher.output.length ≥ nframes
  · have hmin : min nframes e.stretcher.output.length = nframes := Nat.min_eq_left h1
    simp only [h1, if_true, read_into, store, Stretcher.read_audio, List.length_map,
      List.length_take, hmin, List.length_drop, true_and]
    omega
  · have hlt : e.stretcher.output.length < nframes := Nat.lt_of_not_ge h1
    by_cases h2 : e.hit_end = true
    · by_cases h3 : e.stretcher.output.length > 0
      · have htake : e.stretcher.output.take e.stretcher.output.length
            = e.stretcher.output := List.take_length _
        have hdrop : ∀ buf : List Sample,
            (List.replicate nframes (0 : Sample) ++ buf).drop e.stretcher.output.length
              = List.replicate (nframes - e.stretcher.output.length) 0 ++ buf := by
          intro buf
          rw [List.drop_append_of_le_length (by simp; omega), List.drop_replicate]
        simp only [h1, h2, h3, if_false, if_true, and_self, read_into, zero_buffers,
          store, zeroFill, Stretcher.read_audio, htake, List.length_map, hdrop,
          List.drop_length, List.length_nil, List.append_assoc, true_and]
        omega
      · have h0 : e.stretcher.output = [] := by
          apply List.length_eq_zero.mp
          omega
        have hn : nframes ≠ 0 := by omega
        simp [h2, h0, hn, zero_buffers, zeroFill]
    · simp [h1, h2, zero_buffers, zeroFill]

/-! ## C4 -/

/-- The capture loop appends `k` samples of the input buffer, from index `i` on, to both
capture buffers, when they lie inside the input buffer. -/
theorem capture_loop_eq (input : List Sample) (k i : Nat) (e : Engine)
    (h : i + k ≤ input.length) :
    capture_loop input k i e =
      some { e with left2 := e.left2 ++ (input.drop i).take k,
                    right2 := e.right2 ++ (input.drop i).take k } := by
  induction k generalizing i e with
  | zero => simp [capture_loop]
  | succ k ih =>
    have hi : i < input.length := by omega
    have hget : input.get? i = some (input.get ⟨i, hi⟩) := List.get?_eq_get hi
    have hdrop : input.drop i = input.get ⟨i, hi⟩ :: input.drop (i + 1) :=
      List.drop_eq_getElem_cons hi
    simp only [capture_loop, hget, Option.some_bind]
    rw [ih (i + 1) _ (by omega), hdrop]
    simp only [List.take_succ_cons, List.append_assoc, List.singleton_append]

/-- One capture callback while capturing appends the first `nframes` input samples to
both capture buffers. -/
theorem process_callback_capture_eq (e : Engine) (input : List Sample) (nframes : Nat)
    (hcap : e.capturing = true) (h : nframes ≤ input.length) :
    process_callback_capture e input nframes =
      some { e with left2 := e.left2 ++ input.take nframes,
                    right2 := e.right2 ++ input.take nframes } := by
  rw [process_callback_capture, if_pos hcap, capture_loop_eq input nframes 0 e (by omega)]
  simp

/-- A sequence of capture callbacks while capturing appends the delivered frames, in
arrival order, to both capture buffers. -/
theorem capture_all_eq (cbs : List (List Sample × Nat)) (e : Engine)
    (hcap : e.capturing = true) (h : ∀ cb ∈ cbs, cb.2 ≤ cb.1.length) :
    capture_all cbs e =
      some { e with left2 := e.left2 ++ delivered cbs,
                    right2 := e.right2 ++ delivered cbs } := by
  induction cbs generalizing e with
  | nil => simp [capture_all, delivered]
  | cons cb cbs ih =>
    have h1 : cb.2 ≤ cb.1.length := h cb (List.mem_cons_self _ _)
    have h2 : ∀ c ∈ cbs, c.2 ≤ c.1.length := fun c hc => h c (List.mem_cons_of_mem _ hc)
    simp only [capture_all, process_callback_capture_eq e cb.1 cb.2 hcap h1,
      Option.some_bind]
    rw [ih { e with left2 := e.left2 ++ cb.1.take cb.2,
                    right2 := e.right2 ++ cb.1.take cb.2 } hcap h2]
    simp [delivered]

/-- C4: on an engine with recording enabled and no recording in progress, whose main
channels have equal length L, for every punch range whose frame indices satisfy
start ≤ end ≤ L: `start_recording`, then capture callbacks (each delivering the
frames of its input buffer), then `stop_recording(true)` all return, and each main
channel is then the original's first `start` samples, followed by the captured
frames in arrival order, followed by the original's samples from index `end` on; its
length is start + m + (L - end) for m captured frames. -/
theorem C4_punch_splice (e : Engine) (startMs stopMs : Nat)
    (cbs : List (List Sample × Nat))
    (hrec : e.sound_recording = true) (hcap : e.capturing = false)
    (hlen : e.left.length = e.right.length)
    (hse : msToFrames e startMs ≤ msToFrames e stopMs)
    (heL : msToFrames e stopMs ≤ e.left.length)
    (hcb : ∀ cb ∈ cbs, cb.2 ≤ cb.1.length) :
    ∃ e1 e2, start_recording e startMs stopMs = some e1 ∧ capture_all cbs e1 = some e2 ∧
      (stop_recording e2 true).left =
        e.left.take (msToFrames e startMs) ++ delivered cbs
          ++ e.left.drop (msToFrames e stopMs) ∧
      (stop_recording e2 true).right =
        e.right.take (msToFrames e startMs) ++ delivered cbs
          ++ e.right.drop (msToFrames e stopMs) ∧
      (stop_recording e2 true).left.length =
        msToFrames e startMs + (delivered cbs).length
          + (e.left.length - msToFrames e stopMs) ∧
      (stop_recording e2 true).right.length =
        msToFrames e startMs + (delivered cbs).length
          + (e.left.length - msToFrames e stopMs) ∧
      (stop_recording e2 true).capturing = false := by
  have hsL : msToFrames e startMs ≤ e.left.length := le_trans hse heL
  have hsR : msToFrames e startMs ≤ e.right.length := hlen ▸ hsL
  have heR : msToFrames e stopMs ≤ e.right.length := hlen ▸ heL
  have hstart : start_recording e startMs stopMs = some
      { e with startRecordPosition := msToFrames e startMs,
               endRecordPosition := msToFrames e stopMs,
               left2 := e.left.take (msToFrames e startMs),
               right2 := e.right.take (msToFrames e startMs),
               left3 := e.left.drop (msToFrames e stopMs),
               right3 := e.right.drop (msToFrames e stopMs),
               capturing := true } := by
    simp [start_recording, begin_capture, rangeTo, rangeFrom, hrec, hcap, hsL, hsR, heL, heR]
  refine ⟨_, _, hstart, capture_all_eq cbs _ rfl hcb, ?_⟩
  simp [stop_recording, hrec, hsL, hsR, hlen]
  omega

/-- C4 at the spec's scenario, at 2 Hz: a 5-second buffer (10 frames), the range 1 s to
2 s (frames 2 to 4), 1.5 s captured (3 frames), 5.5 s afterwards (11 frames). -/
theorem C4_punch_splice_witness :
    msToFrames ex_five 1000 = 2 ∧ msToFrames ex_five 2000 = 4 ∧
    (delivered ex_takes).length = 3 ∧
    ∃ e1 e2, start_recording ex_five 1000 2000 = some e1 ∧
      capture_all ex_takes e1 = some e2 ∧
      (stop_recording e2 true).left = [1, 2, 21, 22, 23, 5, 6, 7, 8, 9, 10] ∧
      (stop_recording e2 true).left.length = 11 ∧
      (stop_recording e2 true).right.length = 11 := by
  obtain ⟨e1, e2, h1, h2, hl, _, hll, hrl, _⟩ :=
    C4_punch_splice ex_five 1000 2000 ex_takes (by decide) (by decide) (by decide)
      (by decide!) (by decide!) (by decide)
  refine ⟨by decide!, by decide!, by decide, e1, e2, h1, h2, ?_, ?_, ?_⟩
  · rw [hl]
    decide!
  · rw [hll]
    decide!
  · rw [hrl]
    decide!

/-! ## C5 -/

/-- C5, counterexample: `load_song` on the playing engine, for a file that neither
library can open, returns false and leaves the engine stopped, with empty main
buffers and both cursors at 0, where it was playing 4 loaded frames at cursor 3 and
output position 2. For an MP3 file whose second read fails it returns false as well
and leaves the one sample decoded so far in the main buffers. -/
theorem C5_failed_load_clears_engine :
    (ex_playing.left, ex_playing.right, ex_playing.position,
      ex_playing.output_position, ex_playing.playing)
      = ([1, 2, 3, 4], [1, 2, 3, 4], 3, 2, true) ∧
    (load_song ex_playing false none ex_nomp3).map
        (fun r => (r.1, r.2.left, r.2.right, r.2.position, r.2.output_position,
          r.2.playing))
      = some (false, [], [], 0, 0, false) ∧
    (load_song ex_playing false none ex_badmp3).map
        (fun r => (r.1, r.2.left, r.2.right, r.2.position, r.2.output_position,
          r.2.playing))
      = some (false, [(1 / 2 : ℚ)], [(1 / 2 : ℚ)], 0, 0, false) := by
  refine ⟨by decide, by decide, by decide!⟩

/-- The libsndfile loader leaves the transport state alone, and the main buffers too
when it fails. -/
theorem libsndfile_keeps (e : Engine) (sf : Option SndFile) :
    (load_song_using_libsndfile e sf).2.playing = e.playing ∧
    (load_song_using_libsndfile e sf).2.position = e.position ∧
    (load_song_using_libsndfile e sf).2.output_position = e.output_position ∧
    (load_song_using_libsndfile e sf).2.stretcher = e.stretcher ∧
    (load_song_using_libsndfile e sf).2.state_changed = e.state_changed ∧
    ((load_song_using_libsndfile e sf).1 = false →
      (load_song_using_libsndfile e sf).2.left = e.left ∧
      (load_song_using_libsndfile e sf).2.right = e.right) := by
  cases sf with
  | none => simp [load_song_using_libsndfile]
  | some f =>
    by_cases h0 : f.frames = 0 <;> simp [load_song_using_libsndfile, h0]

/-- The libmpg123 loader leaves the transport state alone; when it fails the main
buffers are as before, or extended by the reads that succeeded. -/
theorem libmpg123_keeps (e : Engine) (f : Mpg123File) :
    (load_song_using_libmpg123 e f).2.playing = e.playing ∧
    (load_song_using_libmpg123 e f).2.position = e.position ∧
    (load_song_using_libmpg123 e f).2.output_position = e.output_position ∧
    (load_song_using_libmpg123 e f).2.stretcher = e.stretcher ∧
    (load_song_using_libmpg123 e f).2.state_changed = e.state_changed ∧
    ((load_song_using_libmpg123 e f).1 = false →
      ((load_song_using_libmpg123 e f).2.left = e.left ∧
        (load_song_using_libmpg123 e f).2.right = e.right) ∨
      ((load_song_using_libmpg123 e f).2.left, (load_song_using_libmpg123 e f).2.right)
        = f.reads.foldl (fun lr buf => mpg123_chunk f.channels buf 0 lr)
            (e.left, e.right)) := by
  unfold load_song_using_libmpg123
  by_cases h1 : f.opened = false
  · simp [h1]
  by_cases h2 : f.signed_16 = false
  · simp [h1, h2]
  by_cases h3 : f.length = -1 ∨ f.length = 0
  · simp [h1, h2, h3]
  simp only [h1, h2, h3, if_false]
  cases hl : f.last.1 <;> simp

/-- The engine after the start of `load_song`. -/
theorem unload_fields (e : Engine) :
    (unload e).playing = false ∧ (unload e).position = 0 ∧
    (unload e).output_position = 0 ∧ (unload e).stretcher = e.stretcher.reset ∧
    (unload e).state_changed = (e.playing || e.state_changed) ∧
    (unload e).left = [] ∧ (unload e).right = [] := by
  cases hp : e.playing <;> simp [unload, stop, hp]

/-- A `load_song` that returns false returns the decoders' result as it is: the mono
mix runs only after a successful load. -/
theorem load_song_false (e : Engine) (forWriting : Bool) (sf : Option SndFile)
    (mp3 : Mpg123File) (e1 : Engine)
    (h : load_song e forWriting sf mp3 = some (false, e1)) :
    (if forWriting = true then load_song_using_libsndfile (unload e) sf
      else if (load_song_using_libsndfile (unload e) sf).1 = true then
        load_song_using_libsndfile (unload e) sf
      else load_song_using_libmpg123 (load_song_using_libsndfile (unload e) sf).2 mp3)
      = (false, e1) := by
  unfold load_song at h
  simp only at h
  generalize (if forWriting = true then load_song_using_libsndfile (unload e) sf
      else if (load_song_using_libsndfile (unload e) sf).1 = true then
        load_song_using_libsndfile (unload e) sf
      else load_song_using_libmpg123 (load_song_using_libsndfile (unload e) sf).2 mp3)
    = r at h ⊢
  by_cases hc : r.1 = true ∧ r.2.channelCount > 1 ∧ r.2.mono = true
  · rw [if_pos hc] at h
    exfalso
    obtain ⟨p, _, hp⟩ := Option.map_eq_some'.mp h
    have hfst : r.1 = false := congrArg Prod.fst hp
    rw [hc.1] at hfst
    exact absurd hfst (by decide)
  · rw [if_neg hc] at h
    exact Option.some.inj h

/-- C5 (amended): when `load_song` returns false the engine is not as it was before
the call: it is stopped, both cursors are 0, the pipeline has been reset,
`state_changed` is set if the engine was playing, and the main buffers, cleared
before any decoder is tried, hold none of the previously loaded samples: they are
empty, or hold what the libmpg123 reads that succeeded appended to the empty
buffers before the read that failed. -/
theorem C5_failed_load (e : Engine) (forWriting : Bool) (sf : Option SndFile)
    (mp3 : Mpg123File) (e1 : Engine)
    (h : load_song e forWriting sf mp3 = some (false, e1)) :
    e1.playing = false ∧ e1.position = 0 ∧ e1.output_position = 0 ∧
    e1.stretcher = e.stretcher.reset ∧
    e1.state_changed = (e.playing || e.state_changed) ∧
    ((e1.left = [] ∧ e1.right = []) ∨
      (forWriting = false ∧
        (e1.left, e1.right)
          = mp3.reads.foldl (fun lr buf => mpg123_chunk mp3.channels buf 0 lr) ([], []))) := by
  have hu := unload_fields e
  have hr := load_song_false e forWriting sf mp3 e1 h
  have hs := libsndfile_keeps (unload e) sf
  have hm := libmpg123_keeps (load_song_using_libsndfile (unload e) sf).2 mp3
  obtain ⟨hu1, hu2, hu3, hu4, hu5, hu6, hu7⟩ := hu
  obtain ⟨hs1, hs2, hs3, hs4, hs5, hs6⟩ := hs
  obtain ⟨hm1, hm2, hm3, hm4, hm5, hm6⟩ := hm
  by_cases hw : forWriting = true
  · rw [if_pos hw] at hr
    have hfst : (load_song_using_libsndfile (unload e) sf).1 = false := by rw [hr]
    have hsnd : (load_song_using_libsndfile (unload e) sf).2 = e1 := by rw [hr]
    obtain ⟨hl, hrr⟩ := hs6 hfst
    rw [hsnd] at hs1 hs2 hs3 hs4 hs5 hl hrr
    refine ⟨by rw [hs1, hu1], by rw [hs2, hu2], by rw [hs3, hu3], by rw [hs4, hu4],
      by rw [hs5, hu5], Or.inl ⟨by rw [hl, hu6], by rw [hrr, hu7]⟩⟩
  · rw [if_neg hw] at hr
    by_cases hok : (load_song_using_libsndfile (unload e) sf).1 = true
    · rw [if_pos hok] at hr
      rw [hr] at hok
      exact absurd hok Bool.false_ne_true
    · rw [if_neg hok] at hr
      have hfst : (load_song_using_libmpg123
          (load_song_using_libsndfile (unload e) sf).2 mp3).1 = false := by rw [hr]
      have hsnd : (load_song_using_libmpg123
          (load_song_using_libsndfile (unload e) sf).2 mp3).2 = e1 := by rw [hr]
      have hsf : (load_song_using_libsndfile (unload e) sf).1 = false := by
        simpa using hok
      obtain ⟨hl, hrr⟩ := hs6 hsf
      have hbuf := hm6 hfst
      rw [hsnd] at hm1 hm2 hm3 hm4 hm5 hbuf
      rw [hl, hrr, hu6, hu7] at hbuf
      refine ⟨by rw [hm1, hs1, hu1], by rw [hm2, hs2, hu2], by rw [hm3, hs3, hu3],
        by rw [hm4, hs4, hu4], by rw [hm5, hs5, hu5], ?_⟩
      rcases hbuf with hb | hb
      · exact Or.inl hb
      · exact Or.inr ⟨by simpa using hw, hb⟩

/-- The amended C5 at the playing example engine and a file that cannot be opened. -/
theorem C5_failed_load_witness :
    load_song ex_playing false none ex_nomp3 = some (false, ex_unloaded) ∧
    (ex_unloaded.playing = false ∧ ex_unloaded.position = 0 ∧
      ex_unloaded.output_position = 0 ∧
      ex_unloaded.stretcher = ex_playing.stretcher.reset ∧
      ex_unloaded.state_changed = (ex_playing.playing || ex_playing.state_changed) ∧
      ((ex_unloaded.left = [] ∧ ex_unloaded.right = []) ∨
        (false = false ∧
          (ex_unloaded.left, ex_unloaded.right)
            = ex_nomp3.reads.foldl
                (fun lr buf => mpg123_chunk ex_nomp3.channels buf 0 lr) ([], [])))) :=
  ⟨by decide, C5_failed_load ex_playing false none ex_nomp3 ex_unloaded (by decide)⟩

/-! ## C11 -/

/-- A value below 2^31 is itself as an `int32_t`. -/
theorem toI32_small (n : Nat) (h : n < 2 ^ 31) : toI32 n = (n : Int) := by
  have h32 : n % U32 = n := Nat.mod_eq_of_lt (by unfold U32; omega)
  unfold toI32
  rw [h32, if_pos h]

/-- The feed loop with no pending quota returns at once, with the engine as it is. -/
theorem feed_loop_zero (pmod fuel : Nat) (e : Engine) : feed_loop pmod fuel e 0 = some e := by
  cases fuel <;> simp [feed_loop]

/-- C11: for all counter values of the pipeline (with `feed_block_max` in the range of
the `int32_t` that holds the quota), the input quota of a playing cycle is
`feed_block_max` when `written < feed_block_min` and
`available_write ≥ feed_block_max`, and 0 otherwise; and when the condition fails the
feed loop of the cycle returns the engine as it is: nothing is pushed into the
pipeline and `position` is not advanced, as for every quota of 0. -/
theorem C11_feed_decision (pmod : Nat) (e : Engine)
    (h : e.stretcher.feed_block_max < 2 ^ 31) :
    input_quota e.stretcher =
      (if e.stretcher.written < e.stretcher.feed_block_min ∧
          e.stretcher.available_write ≥ e.stretcher.feed_block_max
        then (e.stretcher.feed_block_max : Int) else 0) ∧
    feed_loop pmod (input_quota e.stretcher).toNat e (input_quota e.stretcher) =
      (if e.stretcher.written < e.stretcher.feed_block_min ∧
          e.stretcher.available_write ≥ e.stretcher.feed_block_max
        then feed_loop pmod e.stretcher.feed_block_max e e.stretcher.feed_block_max
        else some e) ∧
    (∀ fuel, feed_loop pmod fuel e 0 = some e) := by
  refine ⟨?_, ?_, fun fuel => feed_loop_zero pmod fuel e⟩
  · unfold input_quota
    rw [toI32_small _ h]
  · unfold input_quota
    rw [toI32_small _ h]
    by_cases hc : e.stretcher.written < e.stretcher.feed_block_min ∧
        e.stretcher.available_write ≥ e.stretcher.feed_block_max
    · simp only [hc, and_self, if_true, Int.toNat_ofNat]
    · simp only [hc, if_false]
      exact feed_loop_zero pmod _ e

/-- C11 at the playing example engine: the quota is 8 and the feed pushes frame 3. -/
theorem C11_feed_decision_witness :
    ex_playing.stretcher.feed_block_max < 2 ^ 31 ∧
    input_quota ex_playing.stretcher = 8 ∧
    (feed_loop POS (input_quota ex_playing.stretcher).toNat ex_playing
        (input_quota ex_playing.stretcher)).map
        (fun e => (e.stretcher.input, e.position))
      = some ([(4, 4)], 4) := by
  obtain ⟨hq, hfeed, _⟩ := C11_feed_decision POS ex_playing (by decide)
  refine ⟨by decide, ?_, ?_⟩
  · rw [hq]
    decide
  · rw [hfeed]
    decide

/-! ## C13 -/

/-- C13: `play`, `stop` and `play_pause` on the pair (`playing`, `state_changed`).
`play` on a stopped engine sets both flags and is the identity on a playing one;
`stop` on a playing engine clears `playing`, sets `state_changed` and is the identity
on a stopped one; both are idempotent. `play_pause` always inverts `playing` and
sets `state_changed`, so that two applications restore `playing`. None of the three
changes the cursors, the buffers or the pipeline. -/
theorem C13_transport (e : Engine) :
    (play e).playing = true ∧
    (play e).state_changed = (if e.playing = true then e.state_changed else true) ∧
    (if e.playing = true then play e = e else True) ∧
    play (play e) = play e ∧
    (stop e).playing = false ∧
    (stop e).state_changed = (if e.playing = true then true else e.state_changed) ∧
    (if e.playing = true then True else stop e = e) ∧
    stop (stop e) = stop e ∧
    (play_pause e).playing = (!e.playing) ∧
    (play_pause e).state_changed = true ∧
    (play_pause (play_pause e)).playing = e.playing ∧
    play e = { e with playing := (play e).playing,
                      state_changed := (play e).state_changed } ∧
    stop e = { e with playing := (stop e).playing,
                      state_changed := (stop e).state_changed } ∧
    play_pause e = { e with playing := (play_pause e).playing,
                            state_changed := (play_pause e).state_changed } := by
  cases hp : e.playing <;> simp [play, stop, play_pause, hp] <;>
    (cases e; simp_all)

/-! ## C16 -/

/-- C16: when recording is disabled by configuration, or a recording is in progress,
both forms of `start_recording` return with the engine exactly as it was. -/
theorem C16_start_recording_rejected (e : Engine) (startPos stopPos : Nat)
    (h : e.sound_recording = false ∨ e.capturing = true) :
    start_recording1 e startPos = some e ∧ start_recording e startPos stopPos = some e := by
  rcases h with h | h
  · simp [start_recording1, start_recording, h]
  · cases hr : e.sound_recording <;> simp [start_recording1, start_recording, h, hr]

/-- C16 at the example engine with a recording in progress. -/
theorem C16_start_recording_rejected_witness :
    (ex_punch.sound_recording = false ∨ ex_punch.capturing = true) ∧
    start_recording1 ex_punch 0 = some ex_punch ∧
    start_recording ex_punch 0 1000 = some ex_punch :=
  ⟨by decide, C16_start_recording_rejected ex_punch 0 1000 (by decide)⟩

/-! ## C17 -/

/-- C17: with recording enabled, `stop_recording(false)` leaves both main buffers as
they were, whatever the capture buffers hold, and clears `capturing`;
`stop_recording(true)` clears `capturing` as well. -/
theorem C17_stop_recording (e : Engine) (h : e.sound_recording = true) :
    (stop_recording e false).left = e.left ∧
    (stop_recording e false).right = e.right ∧
    (stop_recording e false).capturing = false ∧
    (stop_recording e true).capturing = false := by
  simp [stop_recording, h]

/-- C17 at the example engine with a recording in progress. -/
theorem C17_stop_recording_witness :
    ex_punch.sound_recording = true ∧ ex_punch.capturing = true ∧
    ((stop_recording ex_punch false).left = ex_punch.left ∧
      (stop_recording ex_punch false).right = ex_punch.right ∧
      (stop_recording ex_punch false).capturing = false ∧
      (stop_recording ex_punch true).capturing = false) :=
  ⟨by decide, by decide, C17_stop_recording ex_punch (by decide)⟩

/-! ## C12 -/

theorem pow2_eq (k : Int) : pow2 k = (2 : ℚ) ^ k := by
  unfold pow2
  split_ifs with h
  · obtain ⟨n, rfl⟩ := Int.eq_ofNat_of_zero_le h
    simp
  · push_neg at h
    obtain ⟨n, hn⟩ := Int.eq_ofNat_of_zero_le (show 0 ≤ -k by omega)
    have hk : k = -(n : Int) := by omega
    subst hk
    simp

theorem pow2_pos (k : Int) : 0 < pow2 k := by
  rw [pow2_eq]; positivity

theorem bitLenAux_zero (fuel : Nat) : bitLenAux fuel 0 = 0 := by
  cases fuel <;> simp [bitLenAux]

theorem bitLenAux_spec : ∀ (fuel n : Nat), n ≤ fuel → 0 < n →
    ∃ k, bitLenAux fuel n = k + 1 ∧ 2 ^ k ≤ n ∧ n < 2 ^ (k + 1) := by
  intro fuel
  induction fuel with
  | zero => intro n h1 h2; omega
  | succ fuel ih =>
    intro n h1 h2
    have hn : n ≠ 0 := by omega
    simp only [bitLenAux, if_neg hn]
    by_cases h : n / 2 = 0
    · refine ⟨0, by rw [h, bitLenAux_zero], ?_, ?_⟩ <;> omega
    · obtain ⟨k, hk, ha, hb⟩ := ih (n / 2) (by omega) (by omega)
      refine ⟨k + 1, by rw [hk], ?_, ?_⟩
      · rw [pow_succ]; omega
      · rw [pow_succ] at hb ⊢; omega

theorem bitLen_spec (n : Nat) (h : 0 < n) :
    ∃ k, bitLen n = k + 1 ∧ 2 ^ k ≤ n ∧ n < 2 ^ (k + 1) :=
  bitLenAux_spec n n le_rfl h

theorem binade_spec (q : ℚ) (hq : q ≠ 0) :
    (2 : ℚ) ^ (binade q) ≤ |q| ∧ |q| < (2 : ℚ) ^ (binade q + 1) := by
  have hn : 0 < q.num.natAbs := Int.natAbs_pos.mpr (Rat.num_ne_zero.mpr hq)
  have hd : 0 < q.den := q.den_pos
  obtain ⟨a, ha, ha1, ha2⟩ := bitLen_spec _ hn
  obtain ⟨b, hb, hb1, hb2⟩ := bitLen_spec _ hd
  have habs : |q| = (q.num.natAbs : ℚ) / (q.den : ℚ) := by
    have h1 : |q| = |(q.num : ℚ)| / (q.den : ℚ) := by
      conv_lhs => rw [← Rat.num_div_den q]
      rw [abs_div, abs_of_pos (show (0 : ℚ) < q.den by exact_mod_cast hd)]
    rw [h1, Nat.cast_natAbs, Int.cast_abs]
  have hdq : (0 : ℚ) < q.den := by exact_mod_cast hd
  have ha1q : (2 : ℚ) ^ a ≤ (q.num.natAbs : ℚ) := by exact_mod_cast ha1
  have ha2q : (q.num.natAbs : ℚ) < (2 : ℚ) ^ (a + 1) := by exact_mod_cast ha2
  have hb1q : (2 : ℚ) ^ b ≤ (q.den : ℚ) := by exact_mod_cast hb1
  have hb2q : (q.den : ℚ) < (2 : ℚ) ^ (b + 1) := by exact_mod_cast hb2
  have hlow : (2 : ℚ) ^ ((a : Int) - b - 1) ≤ |q| := by
    rw [habs, le_div_iff₀ hdq]
    have : (2 : ℚ) ^ ((a : Int) - b - 1) * (2 : ℚ) ^ (b + 1) = (2 : ℚ) ^ a := by
      rw [← zpow_natCast, ← zpow_natCast, ← zpow_add₀ (by norm_num)]
      congr 1; push_cast; ring
    calc (2 : ℚ) ^ ((a : Int) - b - 1) * (q.den : ℚ)
        ≤ (2 : ℚ) ^ ((a : Int) - b - 1) * (2 : ℚ) ^ (b + 1) :=
          mul_le_mul_of_nonneg_left hb2q.le (by positivity)
      _ = (2 : ℚ) ^ a := this
      _ ≤ _ := ha1q
  have hup : |q| < (2 : ℚ) ^ ((a : Int) - b + 1) := by
    rw [habs, div_lt_iff₀ hdq]
    have : (2 : ℚ) ^ ((a : Int) - b + 1) * (2 : ℚ) ^ b = (2 : ℚ) ^ (a + 1) := by
      rw [← zpow_natCast, ← zpow_natCast, ← zpow_add₀ (by norm_num)]
      congr 1; push_cast; ring
    calc (q.num.natAbs : ℚ) < (2 : ℚ) ^ (a + 1) := ha2q
      _ = (2 : ℚ) ^ ((a : Int) - b + 1) * (2 : ℚ) ^ b := this.symm
      _ ≤ (2 : ℚ) ^ ((a : Int) - b + 1) * (q.den : ℚ) :=
          mul_le_mul_of_nonneg_left hb1q (by positivity)
  have he0 : ((bitLen q.num.natAbs : Int) - (bitLen q.den : Int)) = (a : Int) - b := by
    rw [ha, hb]; push_cast; ring
  unfold binade
  simp only [he0, pow2_eq]
  split_ifs with h
  · exact ⟨h, hup⟩
  · push_neg at h
    refine ⟨hlow, ?_⟩
    have : (a : Int) - b - 1 + 1 = (a : Int) - b := by ring
    rw [this]; exact h

theorem binade_lt (q : ℚ) (hq : q ≠ 0) (e : Int) (h : |q| < (2 : ℚ) ^ e) : binade q < e := by
  have h1 := (binade_spec q hq).1
  have h2 : (2 : ℚ) ^ (binade q) < (2 : ℚ) ^ e := lt_of_le_of_lt h1 h
  exact (zpow_lt_zpow_iff_right₀ (by norm_num : (1 : ℚ) < 2)).mp h2

theorem binade_ge (q : ℚ) (hq : q ≠ 0) (e : Int) (h : (2 : ℚ) ^ e ≤ |q|) : e ≤ binade q := by
  have h1 := (binade_spec q hq).2
  have h2 : (2 : ℚ) ^ e < (2 : ℚ) ^ (binade q + 1) := lt_of_le_of_lt h h1
  have := (zpow_lt_zpow_iff_right₀ (by norm_num : (1 : ℚ) < 2)).mp h2
  omega


theorem roundEven_intCast (m : Int) : roundEven (m : ℚ) = m := by
  unfold roundEven
  simp

theorem roundEven_bounds (x : ℚ) : Int.floor x ≤ roundEven x ∧ roundEven x ≤ Int.floor x + 1 := by
  unfold roundEven
  simp only []
  split_ifs <;> omega

theorem roundEven_err (x : ℚ) : |(roundEven x : ℚ) - x| ≤ 1 / 2 := by
  have h1 := Int.floor_le x
  have h2 := Int.lt_floor_add_one x
  unfold roundEven
  simp only []
  rw [abs_le]
  split_ifs with ha hb hc
  · constructor <;> linarith
  · push_cast; constructor <;> linarith
  · push_neg at ha hb
    constructor <;> linarith
  · push_neg at ha hb
    push_cast; constructor <;> linarith

theorem roundEven_mono (x y : ℚ) (h : x ≤ y) : roundEven x ≤ roundEven y := by
  have hf : Int.floor x ≤ Int.floor y := Int.floor_mono h
  rcases lt_or_eq_of_le hf with hlt | heq
  · have := (roundEven_bounds x).2
    have := (roundEven_bounds y).1
    omega
  · unfold roundEven
    simp only []
    rw [heq]
    have hr : x - (Int.floor y : ℚ) ≤ y - (Int.floor y : ℚ) := by linarith
    split_ifs <;> first | omega | (exfalso; linarith)

theorem rn_zero (f : Fmt) : rn f 0 = 0 := by simp [rn]

theorem rn_err (f : Fmt) (q : ℚ) : |rn f q - q| ≤ pow2 (quantum f q) / 2 := by
  have hp := pow2_pos (quantum f q)
  unfold rn
  split_ifs with h
  · subst h; simp; positivity
  · have h1 := roundEven_err (q / pow2 (quantum f q))
    have : (roundEven (q / pow2 (quantum f q)) : ℚ) * pow2 (quantum f q) - q
        = ((roundEven (q / pow2 (quantum f q)) : ℚ) - q / pow2 (quantum f q))
          * pow2 (quantum f q) := by
      field_simp
    rw [this, abs_mul, abs_of_pos hp]
    calc _ ≤ 1 / 2 * pow2 (quantum f q) := mul_le_mul_of_nonneg_right h1 hp.le
      _ = _ := by ring

/-- A value `M * 2^k` with fewer than `prec` digits in `M` and `k` not below the
smallest quantum is a member of the format. -/
theorem rn_exact (f : Fmt) (M k : Int) (hM : |(M : ℚ)| < (2 : ℚ) ^ f.prec) (hk : f.qmin ≤ k) :
    rn f ((M : ℚ) * (2 : ℚ) ^ k) = (M : ℚ) * (2 : ℚ) ^ k := by
  by_cases h0 : M = 0
  · subst h0; simp [rn]
  have hq : (M : ℚ) * (2 : ℚ) ^ k ≠ 0 := by
    have : (M : ℚ) ≠ 0 := by exact_mod_cast h0
    positivity
  have hb : binade ((M : ℚ) * (2 : ℚ) ^ k) < (f.prec : Int) + k := by
    apply binade_lt _ hq
    rw [abs_mul, abs_of_pos (show (0 : ℚ) < (2 : ℚ) ^ k by positivity),
      zpow_add₀ (by norm_num), zpow_natCast]
    exact mul_lt_mul_of_pos_right hM (by positivity)
  have hqe : quantum f ((M : ℚ) * (2 : ℚ) ^ k) ≤ k := by
    unfold quantum
    exact max_le (by omega) hk
  obtain ⟨j, hj⟩ := Int.eq_ofNat_of_zero_le (show 0 ≤ k - quantum f ((M : ℚ) * (2 : ℚ) ^ k) by omega)
  unfold rn
  rw [if_neg hq]
  generalize quantum f ((M : ℚ) * (2 : ℚ) ^ k) = c at hqe hj ⊢
  have hk2 : k = c + j := by omega
  have hdiv : (M : ℚ) * (2 : ℚ) ^ k / pow2 c = ((M * 2 ^ j : Int) : ℚ) := by
    rw [pow2_eq, hk2, zpow_add₀ (by norm_num), zpow_natCast]
    push_cast
    field_simp
    ring
  rw [hdiv, roundEven_intCast, pow2_eq, hk2, zpow_add₀ (by norm_num), zpow_natCast]
  push_cast
  ring

theorem rn_natCast (f : Fmt) (n : Nat) (hn : n < 2 ^ f.prec) (hq : f.qmin ≤ 0) :
    rn f (n : ℚ) = (n : ℚ) := by
  have := rn_exact f (n : Int) 0 (by
    rw [Int.cast_natCast, abs_of_nonneg (Nat.cast_nonneg n)]
    exact_mod_cast hn) hq
  simpa using this

/-- The rounded value is a multiple of the quantum by an integer of at most `prec`
digits (or the power of two after them). -/
theorem rn_form (f : Fmt) (q : ℚ) :
    ∃ m : Int, rn f q = (m : ℚ) * (2 : ℚ) ^ (quantum f q) ∧ |(m : ℚ)| ≤ (2 : ℚ) ^ f.prec := by
  by_cases hq : q = 0
  · refine ⟨0, by subst hq; simp [rn], ?_⟩
    simp only [Int.cast_zero, abs_zero]
    positivity
  refine ⟨roundEven (q / pow2 (quantum f q)), ?_, ?_⟩
  · unfold rn; rw [if_neg hq, pow2_eq]
  · have hb := (binade_spec q hq).2
    have hqe : binade q - ((f.prec : Int) - 1) ≤ quantum f q := le_max_left _ _
    have hp := pow2_pos (quantum f q)
    have hbound : |q / pow2 (quantum f q)| ≤ (2 : ℚ) ^ f.prec := by
      rw [abs_div, abs_of_pos hp, div_le_iff₀ hp, pow2_eq, ← zpow_natCast, ← zpow_add₀ (by norm_num)]
      refine le_trans hb.le ?_
      exact (zpow_le_zpow_iff_right₀ (by norm_num : (1 : ℚ) < 2)).mpr (by omega)
    have hpow : ((2 ^ f.prec : Int) : ℚ) = (2 : ℚ) ^ f.prec := by push_cast; rfl
    rw [abs_le] at hbound ⊢
    constructor
    · have := roundEven_mono _ _ hbound.1
      rw [← hpow, ← Int.cast_neg, roundEven_intCast] at this
      rw [← hpow, ← Int.cast_neg]
      exact_mod_cast this
    · have := roundEven_mono _ _ hbound.2
      rw [← hpow, roundEven_intCast] at this
      rw [← hpow]
      exact_mod_cast this

theorem rn_nonneg (f : Fmt) (q : ℚ) (hq : 0 ≤ q) : 0 ≤ rn f q := by
  unfold rn
  split_ifs with h
  · exact le_rfl
  · have hp := pow2_pos (quantum f q)
    have h1 : (0 : ℚ) ≤ q / pow2 (quantum f q) := div_nonneg hq hp.le
    have h2 := roundEven_mono _ _ h1
    rw [show (0 : ℚ) = ((0 : Int) : ℚ) by simp, roundEven_intCast] at h2
    have : (0 : ℚ) ≤ (roundEven (q / pow2 (quantum f q)) : ℚ) := by exact_mod_cast h2
    positivity

/-- Below `2^prec` the quantum is at most 1, so the rounded value lies between the
integers around the exact one. -/
theorem rn_floor_bounds (f : Fmt) (x : ℚ) (h0 : 0 ≤ x) (hx : x < (2 : ℚ) ^ f.prec)
    (hq : f.qmin ≤ 0) :
    (Int.floor x : ℚ) ≤ rn f x ∧ rn f x ≤ (Int.floor x : ℚ) + 1 := by
  by_cases hz : x = 0
  · subst hz; simp [rn]
  have hb : binade x < f.prec := by
    apply binade_lt _ hz
    rw [abs_of_nonneg h0, zpow_natCast]; exact hx
  have hqe : quantum f x ≤ 0 := max_le (by omega) hq
  obtain ⟨j, hj⟩ := Int.eq_ofNat_of_zero_le (show 0 ≤ -quantum f x by omega)
  unfold rn
  rw [if_neg hz]
  generalize quantum f x = c at hqe hj ⊢
  have hc : c = -(j : Int) := by omega
  subst hc
  have hp : pow2 (-(j : Int)) = 1 / (2 : ℚ) ^ j := by
    rw [pow2_eq, zpow_neg, zpow_natCast, one_div]
  have h2j : (0 : ℚ) < (2 : ℚ) ^ j := by positivity
  rw [hp]
  have hdiv : x / (1 / (2 : ℚ) ^ j) = x * (2 : ℚ) ^ j := by field_simp
  rw [hdiv]
  have hfl := Int.floor_le x
  have hfl2 := Int.lt_floor_add_one x
  have hlo : ((Int.floor x * 2 ^ j : Int) : ℚ) ≤ x * (2 : ℚ) ^ j := by
    push_cast; exact mul_le_mul_of_nonneg_right hfl h2j.le
  have hhi : x * (2 : ℚ) ^ j ≤ (((Int.floor x + 1) * 2 ^ j : Int) : ℚ) := by
    push_cast; exact mul_le_mul_of_nonneg_right hfl2.le h2j.le
  have m1 := roundEven_mono _ _ hlo
  have m2 := roundEven_mono _ _ hhi
  rw [roundEven_intCast] at m1 m2
  have m1q : ((Int.floor x * 2 ^ j : Int) : ℚ) ≤ (roundEven (x * (2 : ℚ) ^ j) : ℚ) := by
    exact_mod_cast m1
  have m2q : (roundEven (x * (2 : ℚ) ^ j) : ℚ) ≤ (((Int.floor x + 1) * 2 ^ j : Int) : ℚ) := by
    exact_mod_cast m2
  push_cast at m1q m2q
  constructor
  · rw [mul_one_div, le_div_iff₀ h2j]; exact m1q
  · rw [mul_one_div, div_le_iff₀ h2j]; exact m2q

/-- In the normal range the rounding error is at most the value times `2^(-prec)`. -/
theorem rn_rel_err (f : Fmt) (q : ℚ) (h : f.qmin ≤ binade q - ((f.prec : Int) - 1)) :
    |rn f q - q| ≤ |q| / (2 : ℚ) ^ f.prec := by
  by_cases hq : q = 0
  · subst hq; simp [rn]
  have h1 := rn_err f q
  have hc : quantum f q = binade q - ((f.prec : Int) - 1) := max_eq_left h
  have hb := (binade_spec q hq).1
  refine le_trans h1 ?_
  rw [hc, pow2_eq, le_div_iff₀ (by positivity)]
  have : (2 : ℚ) ^ (binade q - ((f.prec : Int) - 1)) / 2 * (2 : ℚ) ^ f.prec
      = (2 : ℚ) ^ (binade q) := by
    rw [← zpow_natCast (2 : ℚ) f.prec, div_mul_eq_mul_div, ← zpow_add₀ (by norm_num)]
    rw [div_eq_iff (by norm_num), ← zpow_add_one₀ (by norm_num)]
    congr 1; ring
  rw [this]; exact hb

/-- The `float` quotient of a cursor and a whole sample rate, both below `2^24`: it is
not negative, within `2^(-24)` of the exact quotient in relative terms, finite, and
its product with the sample rate is a `double`. -/
theorem float_quotient (p n : Nat) (hn1 : 1 ≤ n) (hn2 : n < 2 ^ 24) (hp : p < 2 ^ 24) :
    0 ≤ rn binary32 ((p : ℚ) / n) ∧
    |rn binary32 ((p : ℚ) / n) - (p : ℚ) / n| ≤ (p : ℚ) / n / 2 ^ 24 ∧
    rn binary64 (rn binary32 ((p : ℚ) / n) * n) = rn binary32 ((p : ℚ) / n) * n ∧
    |rn binary32 ((p : ℚ) / n)| < pow2 (binary32.emax + 1) := by
  have hnq : (0 : ℚ) < n := by exact_mod_cast hn1
  have hn2q : (n : ℚ) < 2 ^ 24 := by exact_mod_cast hn2
  have hpq : (p : ℚ) < 2 ^ 24 := by exact_mod_cast hp
  have hx0 : (0 : ℚ) ≤ (p : ℚ) / n := by positivity
  have ha := rn_nonneg binary32 _ hx0
  have hb : |rn binary32 ((p : ℚ) / n) - (p : ℚ) / n| ≤ (p : ℚ) / n / 2 ^ 24 := by
    by_cases hp0 : p = 0
    · subst hp0; simp [rn]
    have hp1 : (1 : ℚ) ≤ p := by exact_mod_cast Nat.one_le_iff_ne_zero.mpr hp0
    have hxne : (p : ℚ) / n ≠ 0 := by positivity
    have hge : (-24 : Int) ≤ binade ((p : ℚ) / n) := by
      apply binade_ge _ hxne
      rw [abs_of_nonneg hx0, le_div_iff₀ hnq]
      have : (2 : ℚ) ^ (-24 : Int) * n ≤ (2 : ℚ) ^ (-24 : Int) * 2 ^ 24 :=
        mul_le_mul_of_nonneg_left hn2q.le (by positivity)
      have h1 : (2 : ℚ) ^ (-24 : Int) * 2 ^ 24 = 1 := by norm_num
      linarith
    have := rn_rel_err binary32 ((p : ℚ) / n) (by simp only [binary32]; omega)
    rw [abs_of_nonneg hx0] at this
    exact this
  refine ⟨ha, hb, ?_, ?_⟩
  · obtain ⟨m, hm, hmb⟩ := rn_form binary32 ((p : ℚ) / n)
    have hc : binary64.qmin ≤ quantum binary32 ((p : ℚ) / n) :=
      le_trans (by decide) (le_max_right _ _)
    have hmn : |((m * (n : Int) : Int) : ℚ)| < (2 : ℚ) ^ binary64.prec := by
      push_cast
      rw [abs_mul, abs_of_pos hnq]
      have h1 : |(m : ℚ)| * n ≤ 2 ^ 24 * n := mul_le_mul_of_nonneg_right hmb hnq.le
      have h2 : (2 : ℚ) ^ 24 * n < 2 ^ 24 * 2 ^ 24 := by
        apply mul_lt_mul_of_pos_left hn2q (by positivity)
      have h3 : (2 : ℚ) ^ 24 * 2 ^ 24 < (2 : ℚ) ^ binary64.prec := by
        simp only [binary64]; norm_num
      simp only [binary32] at h1
      linarith
    have := rn_exact binary64 (m * (n : Int)) _ hmn hc
    have heq : ((m * (n : Int) : Int) : ℚ) * (2 : ℚ) ^ quantum binary32 ((p : ℚ) / n)
        = rn binary32 ((p : ℚ) / n) * n := by
      rw [hm]; push_cast; ring
    rw [heq] at this
    exact this
  · rw [pow2_eq, abs_of_nonneg ha]
    have h1 := (abs_le.mp hb).2
    have h2 : (p : ℚ) / n ≤ p := div_le_self (by positivity) (by exact_mod_cast hn1)
    have h3 : (p : ℚ) / n / 2 ^ 24 ≤ (p : ℚ) / n := div_le_self hx0 (by norm_num)
    have h4 : (2 : ℚ) ^ 25 < (2 : ℚ) ^ (binary32.emax + 1) := by
      simp only [binary32]; norm_num
    have h5 : (2 : ℚ) * 2 ^ 24 = 2 ^ 25 := by norm_num
    linarith

/-- The position query on a loaded engine with a whole sample rate and a cursor below
`2^24`: the conversion of the cursor is exact and the quotient is finite. -/
theorem get_position_float (e : Engine) (n : Nat) (hl : 0 < e.left.length)
    (hsr : e.sample_rate = (n : ℚ)) (hn1 : 1 ≤ n) (hn2 : n < 2 ^ 24)
    (hp : e.output_position < 2 ^ 24) :
    get_position e = some (rn binary32 ((e.output_position : ℚ) / n)) := by
  have hnq : (n : ℚ) ≠ 0 := by
    have : (0 : ℚ) < n := by exact_mod_cast hn1
    exact ne_of_gt this
  obtain ⟨_, _, _, hfin⟩ := float_quotient e.output_position n hn1 hn2 hp
  unfold get_position
  rw [if_pos hl, rn_natCast binary32 _ hp (by decide), hsr]
  unfold fdiv finite
  rw [if_neg hnq, if_pos hfin]

/-- The seek to the `float` quotient of a cursor `p` and a whole sample rate, both
below `2^24`: the product is exact, and its truncation is `p` or `p - 1`. -/
theorem locate_float_quotient (e : Engine) (n p : Nat)
    (hsr : e.sample_rate = (n : ℚ)) (hn1 : 1 ≤ n) (hn2 : n < 2 ^ 24) (hp : p < 2 ^ 24) :
    ∃ k : Nat, (k = p ∨ k + 1 = p) ∧
      k = (Int.floor (rn binary32 ((p : ℚ) / n) * e.sample_rate)).toNat ∧
      locate e (rn binary32 ((p : ℚ) / n)) =
        some { e with output_position := k, position := k, state_changed := true,
                      stretcher := e.stretcher.reset } := by
  have hnq : (0 : ℚ) < n := by exact_mod_cast hn1
  have hpq : (p : ℚ) < 2 ^ 24 := by exact_mod_cast hp
  obtain ⟨ha, hb, hc, _⟩ := float_quotient p n hn1 hn2 hp
  generalize hg : rn binary32 ((p : ℚ) / n) = g at ha hb hc ⊢
  have hgn : 0 ≤ g * n := mul_nonneg ha hnq.le
  have hdiff : |g * n - p| < 1 := by
    have h1 : g * n - p = (g - (p : ℚ) / n) * n := by field_simp
    rw [h1, abs_mul, abs_of_pos hnq]
    have h2 : |g - (p : ℚ) / n| * n ≤ (p : ℚ) / n / 2 ^ 24 * n :=
      mul_le_mul_of_nonneg_right hb hnq.le
    have h3 : (p : ℚ) / n / 2 ^ 24 * n = (p : ℚ) / 2 ^ 24 := by field_simp; ring
    have h4 : (p : ℚ) / 2 ^ 24 < 1 := by rw [div_lt_one (by positivity)]; exact hpq
    linarith
  obtain ⟨hlo, hhi⟩ := abs_lt.mp hdiff
  have hk0 : 0 ≤ Int.floor (g * n) := Int.floor_nonneg.mpr hgn
  have hk1 : (p : Int) - 1 ≤ Int.floor (g * n) := by
    apply Int.le_floor.mpr
    push_cast; linarith
  have hk2 : Int.floor (g * n) < (p : Int) + 1 := by
    apply Int.floor_lt.mpr
    push_cast; linarith
  have hpos : (Int.floor (g * n)).toNat % POS = (Int.floor (g * n)).toNat := by
    apply Nat.mod_eq_of_lt
    have : (2 : Nat) ^ 24 < POS := by decide
    omega
  refine ⟨(Int.floor (g * n)).toNat, by omega, by rw [hsr], ?_⟩
  unfold locate
  simp only [hsr, hc]
  have ht : truncQ (g * n) = Int.floor (g * n) := by
    unfold truncQ; rw [if_pos hgn]
  rw [ht, if_pos ⟨hk0, by
    have : ((2 : Nat) ^ 24 : Int) < (ULONG : Int) := by decide
    have hp2 : (p : Int) < ((2 : Nat) ^ 24 : Int) := by exact_mod_cast hp
    omega⟩, hpos]

/-! ## C15 -/

/-- Truncation of a natural number gives the number back. -/
theorem truncQ_natCast (n : Nat) : truncQ (n : ℚ) = (n : Int) := by
  unfold truncQ
  rw [if_pos (Nat.cast_nonneg n)]
  exact Int.floor_natCast n

/-- C15, counterexample: on the 16-frame engine at 48 kHz with its output position at
frame 8, `get_position()` is the `float` 5726623 / 2^35, a little below 8/48000;
`locate` of it computes the product 7.9999999 and puts both cursors at frame 7, and
`get_position()` afterwards is 5010795 / 2^35. The two values differ by
178957 / 2^33 seconds, which is more than one frame's duration 1/48000. It is the same
with a sample rate held in a `double`. From frame 33554435 the round trip lands on
frame 33554434 and the two values differ by 2^(-14) seconds, more than two frames. -/
theorem C15_roundtrip_moves_more_than_a_frame :
    0 < ex_48k.left.length ∧ 0 < ex_48k.sample_rate ∧ ex_48k.output_position = 8 ∧
    get_position ex_48k = some (5726623 / 2 ^ 35) ∧
    get_position_double ex_48k = some (5726623 / 2 ^ 35) ∧
    ((get_position ex_48k).bind (locate ex_48k)).map
        (fun e => (e.output_position, e.position, get_position e, get_position_double e))
      = some (7, 7, some (5010795 / 2 ^ 35), some (5010795 / 2 ^ 35)) ∧
    ¬ (|(5010795 / 2 ^ 35 : ℚ) - 5726623 / 2 ^ 35| < 1 / ex_48k.sample_rate) ∧
    get_position ex_48k_far = some (11453247 / 2 ^ 14) ∧
    ((get_position ex_48k_far).bind (locate ex_48k_far)).map
        (fun e => (e.output_position, get_position e))
      = some (33554434, some (5726623 / 2 ^ 13)) ∧
    (11453247 / 2 ^ 14 : ℚ) - 5726623 / 2 ^ 13 = 1 / 2 ^ 14 ∧
    2 / ex_48k_far.sample_rate < (1 / 2 ^ 14 : ℚ) := by
  decide!

/-- C15: in exact arithmetic, on an engine with a loaded buffer and a sample rate
above 0, `locate(get_position())` restores `output_position` exactly and
`get_position()` right afterwards returns the same value. In the arithmetic of the
code, for a whole sample rate from 1 to 2^24 - 1 and an output position `p` below
2^24, `get_position()` is the `float` nearest to `p / sample_rate`, `locate` of it
succeeds and sets both cursors to the truncated product, which is `p` or `p - 1`,
and `get_position()` right afterwards is equal to the first value when `p` was
restored and in any case less than (1 + p / 2^23) frame durations away from it. -/
theorem C15_locate_roundtrip (e : Engine)
    (hl : 0 < e.left.length) (hsr : 0 < e.sample_rate) (hpos : e.output_position < POS) :
    (locate_exact e (get_position_exact e)).output_position = e.output_position ∧
    (locate_exact e (get_position_exact e)).position = e.output_position ∧
    get_position_exact (locate_exact e (get_position_exact e)) = get_position_exact e ∧
    (∀ n : Nat, e.sample_rate = (n : ℚ) → n < 2 ^ 24 → e.output_position < 2 ^ 24 →
      ∃ g e1 g1, get_position e = some g ∧ locate e g = some e1 ∧
        get_position e1 = some g1 ∧
        g = rn binary32 ((e.output_position : ℚ) / e.sample_rate) ∧
        e1.position = e1.output_position ∧
        e1.output_position = (Int.floor (g * e.sample_rate)).toNat ∧
        (e1.output_position = e.output_position ∨
          e1.output_position + 1 = e.output_position) ∧
        (e1.output_position = e.output_position → g1 = g) ∧
        |g1 - g| < (1 + (e.output_position : ℚ) / 2 ^ 23) / e.sample_rate) := by
  have hgp : get_position_exact e = (e.output_position : ℚ) / e.sample_rate := by
    simp [get_position_exact, hl]
  have hmul : (e.output_position : ℚ) / e.sample_rate * e.sample_rate
      = (e.output_position : ℚ) := div_mul_cancel₀ _ (ne_of_gt hsr)
  have hp : (truncQ (get_position_exact e * e.sample_rate)).toNat % POS
      = e.output_position := by
    rw [hgp, hmul, truncQ_natCast, Int.toNat_ofNat, Nat.mod_eq_of_lt hpos]
  have h1 : (locate_exact e (get_position_exact e)).output_position
      = e.output_position := by
    simp only [locate_exact, hp]
  have h2 : (locate_exact e (get_position_exact e)).position = e.output_position := by
    simp only [locate_exact, hp]
  have h3 : get_position_exact (locate_exact e (get_position_exact e))
      = get_position_exact e := by
    have hL : (locate_exact e (get_position_exact e)).left = e.left := rfl
    have hS : (locate_exact e (get_position_exact e)).sample_rate = e.sample_rate := rfl
    generalize locate_exact e (get_position_exact e) = x at h1 hL hS ⊢
    simp only [get_position_exact, h1, hL, hS]
  refine ⟨h1, h2, h3, ?_⟩
  intro n hn hn2 hp24
  have hnq : (0 : ℚ) < n := by rw [← hn]; exact hsr
  have hn1 : 1 ≤ n := by
    have : 0 < n := by exact_mod_cast hnq
    omega
  have hg := get_position_float e n hl hn hn1 hn2 hp24
  obtain ⟨k, hk, hkf, hloc⟩ := locate_float_quotient e n e.output_position hn hn1 hn2 hp24
  have hk24 : k < 2 ^ 24 := by omega
  have hg1 := get_position_float
    { e with output_position := k, position := k, state_changed := true,
             stretcher := e.stretcher.reset } n hl hn hn1 hn2 hk24
  refine ⟨_, _, _, hg, hloc, hg1, by rw [hn], rfl, ?_, ?_, ?_, ?_⟩
  · show k = _
    rw [hkf]
  · show k = _ ∨ k + 1 = _
    exact hk
  · intro h
    have hk' : k = e.output_position := h
    show rn binary32 ((k : ℚ) / n) = _
    rw [hk']
  · show |rn binary32 ((k : ℚ) / n) - rn binary32 ((e.output_position : ℚ) / n)| < _
    rw [hn]
    obtain ⟨_, hb, _, _⟩ := float_quotient e.output_position n hn1 hn2 hp24
    obtain ⟨_, hb1, _, _⟩ := float_quotient k n hn1 hn2 hk24
    have hbound : (0 : ℚ) < (1 + (e.output_position : ℚ) / 2 ^ 23) / n := by positivity
    rcases hk with hk | hk
    · rw [hk, sub_self, abs_zero]; exact hbound
    · have hkq : (e.output_position : ℚ) = (k : ℚ) + 1 := by exact_mod_cast hk.symm
      generalize rn binary32 ((k : ℚ) / n) = g1 at hb1 ⊢
      generalize rn binary32 ((e.output_position : ℚ) / n) = g at hb ⊢
      rw [abs_le] at hb hb1
      have e1 : (e.output_position : ℚ) / n = (k : ℚ) / n + 1 / n := by
        rw [hkq]; field_simp
      have e2 : (1 + (e.output_position : ℚ) / 2 ^ 23) / n
          = 1 / n + 2 * ((e.output_position : ℚ) / n / 2 ^ 24) := by
        field_simp; ring
      have e3 : (k : ℚ) / n / 2 ^ 24 < (e.output_position : ℚ) / n / 2 ^ 24 := by
        rw [e1]
        have : (0 : ℚ) < 1 / n / 2 ^ 24 := by positivity
        have e4 : ((k : ℚ) / n + 1 / n) / 2 ^ 24 = (k : ℚ) / n / 2 ^ 24 + 1 / n / 2 ^ 24 := by
          ring
        linarith
      rw [e2, abs_lt]
      constructor <;> linarith [hb.1, hb.2, hb1.1, hb1.2]

/-- C15 at the 16-frame engine at 48 kHz with its output position at frame 8: in
exact arithmetic the round trip restores frame 8; in the arithmetic of the code it
lands on frame 7. -/
theorem C15_locate_roundtrip_witness :
    0 < ex_48k.left.length ∧ 0 < ex_48k.sample_rate ∧ ex_48k.output_position < POS ∧
    (locate_exact ex_48k (get_position_exact ex_48k)).output_position = 8 ∧
    ex_48k.sample_rate = ((48000 : Nat) : ℚ) ∧
    ∃ g e1 g1, get_position ex_48k = some g ∧ locate ex_48k g = some e1 ∧
      get_position e1 = some g1 ∧ g = 5726623 / 2 ^ 35 ∧ e1.output_position = 7 ∧
      e1.position = 7 ∧ |g1 - g| < (1 + (8 : ℚ) / 2 ^ 23) / 48000 := by
  obtain ⟨h1, _, _, hfloat⟩ :=
    C15_locate_roundtrip ex_48k (by decide) (by decide!) (by decide)
  obtain ⟨g, e1, g1, hg, hloc, hg1, _, hpp, _, _, _, hd⟩ :=
    hfloat 48000 (by decide!) (by decide) (by decide)
  have hgv : get_position ex_48k = some (5726623 / 2 ^ 35) := by decide!
  have hge : g = 5726623 / 2 ^ 35 := Option.some.inj (hg.symm.trans hgv)
  have hlv : (locate ex_48k (5726623 / 2 ^ 35)).map (fun e => e.output_position)
      = some 7 := by decide!
  have h7 : e1.output_position = 7 := by
    rw [← hge, hloc] at hlv
    exact Option.some.inj hlv
  refine ⟨by decide, by decide!, by decide, h1, by decide!, g, e1, g1, hg, hloc, hg1, hge,
    h7, hpp.trans h7, ?_⟩
  have h8 : (ex_48k.output_position : ℚ) = 8 := by decide!
  have hs : ex_48k.sample_rate = 48000 := by decide!
  rw [h8, hs] at hd
  exact hd

/-! ## C14 -/

/-- A cycle without the lock always returns, with silence written and the state
change consumed. -/
theorem process_callback_unlocked (e : Engine) (nframes : Nat) :
    process_callback e false nframes = some (zero_buffers (consume_state_change e) nframes) := by
  simp [process_callback]

/-- After the block that consumes a state change, an engine between a seek and the
next locked cycle has a clear flag, its cursor at the seek target and an empty
pipeline. -/
theorem SeekPending_consume (pos : Nat) (e0 x : Engine) (h : SeekPending pos e0 x) :
    (consume_state_change x).state_changed = false ∧
    (consume_state_change x).position = pos ∧
    (consume_state_change x).output_position = pos ∧
    (consume_state_change x).playing = e0.playing ∧
    (consume_state_change x).left = e0.left ∧
    (consume_state_change x).stretcher.input = [] ∧
    (consume_state_change x).stretcher.output = [] := by
  obtain ⟨h1, h2, h3, h4, h5⟩ := h
  rcases h5 with hs | ⟨hs, hi, ho⟩
  · simp [consume_state_change, hs, h2, h3, h4, reset_drain_eq]
  · simp [consume_state_change, hs, h1, h2, h3, h4, hi, ho]

/-- Cycles without the lock keep an engine between the seek and the next locked cycle. -/
theorem SeekPending_unlocked_cycles (pos : Nat) (e0 : Engine) (ns : List Nat) (x : Engine)
    (h : SeekPending pos e0 x) :
    ∃ y, unlocked_cycles ns x = some y ∧ SeekPending pos e0 y := by
  induction ns generalizing x with
  | nil => exact ⟨x, rfl, h⟩
  | cons n ns ih =>
    obtain ⟨c1, c2, c3, c4, c5, c6, c7⟩ := SeekPending_consume pos e0 x h
    have hy : SeekPending pos e0 (zero_buffers (consume_state_change x) n) :=
      ⟨c2, c3, c4, c5, Or.inr ⟨c1, c6, c7⟩⟩
    obtain ⟨y, hy1, hy2⟩ := ih _ hy
    refine ⟨y, ?_, hy2⟩
    simp only [unlocked_cycles, process_callback_unlocked, Option.some_bind, hy1]

/-- C14, counterexample: at 48 kHz, for `t` = 2.0833333333333333e-05, the exact
product `t × sample_rate` is below 1 and its floor is 0, but the product of the two
`double`s rounds to 1.0 and `locate(t)` puts both cursors at frame 1. -/
theorem C14_locate_rounds_the_product_up :
    0 ≤ secs_frame1 ∧ 0 ≤ ex_48k.sample_rate ∧
    rn binary64 secs_frame1 = secs_frame1 ∧
    secs_frame1 * ex_48k.sample_rate < 1 ∧
    Int.floor (secs_frame1 * ex_48k.sample_rate) = 0 ∧
    rn binary64 (secs_frame1 * ex_48k.sample_rate) = 1 ∧
    (locate ex_48k secs_frame1).map (fun e => (e.position, e.output_position))
      = some (1, 1) := by
  decide!

/-- C14: for every `t ≥ 0`, with a sample rate that is not negative and a product
below 2^64, `locate(t)` succeeds and sets `position` and `output_position` to the
truncation of the `double` product of `t` and the sample rate, which for a product
below 2^53 is floor(t × sample_rate) or that number plus 1; it sets `state_changed`
and leaves `playing` unchanged. After any number of cycles that fail to acquire the
lock, the next cycle that acquires it starts its playing step (or writes silence when
stopped) with `state_changed` clear, the pipeline holding no input and no output
(`available_read` = 0), and the cursor at the frame `locate` computed, where its feed
begins. -/
theorem C14_locate_then_cycle (e : Engine) (t : ℚ) (ns : List Nat) (nframes : Nat)
    (ht : 0 ≤ t) (hsr : 0 ≤ e.sample_rate)
    (hrange : rn binary64 (t * e.sample_rate) < 2 ^ 64) :
    (t * e.sample_rate < 2 ^ 53 →
      Int.floor (t * e.sample_rate) ≤ Int.floor (rn binary64 (t * e.sample_rate)) ∧
      Int.floor (rn binary64 (t * e.sample_rate)) ≤ Int.floor (t * e.sample_rate) + 1) ∧
    ∃ e1, locate e t = some e1 ∧
      e1.position = (Int.floor (rn binary64 (t * e.sample_rate))).toNat ∧
      e1.output_position = (Int.floor (rn binary64 (t * e.sample_rate))).toNat ∧
      e1.state_changed = true ∧
      e1.playing = e.playing ∧
      ∃ x, unlocked_cycles ns e1 = some x ∧
        (consume_state_change x).state_changed = false ∧
        (consume_state_change x).position
          = (Int.floor (rn binary64 (t * e.sample_rate))).toNat ∧
        (consume_state_change x).stretcher.available_read = 0 ∧
        (consume_state_change x).stretcher.input = [] ∧
        process_callback x true nframes =
          (if e.playing = true then
            if e.left.length ≠ 0 then process_playing (consume_state_change x) nframes
            else some { consume_state_change x with playing := false }
          else some (zero_buffers (consume_state_change x) nframes)) := by
  have hx0 : 0 ≤ t * e.sample_rate := mul_nonneg ht hsr
  have hr0 : 0 ≤ rn binary64 (t * e.sample_rate) := rn_nonneg _ _ hx0
  constructor
  · intro h53
    obtain ⟨b1, b2⟩ := rn_floor_bounds binary64 (t * e.sample_rate) hx0
      (by simpa [binary64] using h53) (by decide)
    constructor
    · exact Int.le_floor.mpr b1
    · have := Int.floor_le (rn binary64 (t * e.sample_rate))
      have h3 : ((Int.floor (rn binary64 (t * e.sample_rate)) : Int) : ℚ)
          ≤ ((Int.floor (t * e.sample_rate) + 1 : Int) : ℚ) := by
        push_cast; linarith
      exact_mod_cast h3
  generalize hr : rn binary64 (t * e.sample_rate) = r at hrange hr0
  have hk0 : 0 ≤ Int.floor r := Int.floor_nonneg.mpr hr0
  have hk1 : Int.floor r < (ULONG : Int) := by
    apply Int.floor_lt.mpr
    have : ((ULONG : Int) : ℚ) = 2 ^ 64 := by norm_num [ULONG]
    rw [this]; exact hrange
  have hmod : (Int.floor r).toNat % POS = (Int.floor r).toNat := by
    apply Nat.mod_eq_of_lt
    have : (POS : Int) = (ULONG : Int) := by decide
    omega
  have hlocv : locate e t =
      some { e with output_position := (Int.floor r).toNat, position := (Int.floor r).toNat,
                    state_changed := true, stretcher := e.stretcher.reset } := by
    unfold locate
    simp only [hr]
    have ht2 : truncQ r = Int.floor r := by unfold truncQ; rw [if_pos hr0]
    rw [ht2, if_pos ⟨hk0, hk1⟩, hmod]
  have hloc : SeekPending (Int.floor r).toNat e
      { e with output_position := (Int.floor r).toNat, position := (Int.floor r).toNat,
               state_changed := true, stretcher := e.stretcher.reset } :=
    ⟨rfl, rfl, rfl, rfl, Or.inl rfl⟩
  refine ⟨_, hlocv, rfl, rfl, rfl, rfl, ?_⟩
  obtain ⟨x, hx1, hx2⟩ := SeekPending_unlocked_cycles _ e ns _ hloc
  obtain ⟨c1, c2, _, c4, c5, c6, c7⟩ := SeekPending_consume _ e x hx2
  refine ⟨x, hx1, c1, c2, ?_, c6, ?_⟩
  · simp [Stretcher.available_read, c7]
  · simp only [process_callback, c4, c5]
    cases e.playing <;> simp

/-- C14 at the 16-frame engine in the middle of playback at 2 Hz, with frame 3 in the
pipeline and frames 1 and 2 waiting to be read: a seek to 2.5 s, which is frame 5, one
cycle without the lock, then a cycle of 4 frames with it. That cycle finds the
pipeline empty, feeds the 8 frames from frame 5 on, which hold the samples 6 to 13,
and writes silence: none of the frames 1, 2, 3 is output. -/
theorem C14_locate_then_cycle_witness :
    (0 : ℚ) ≤ 5 / 2 ∧ 0 ≤ ex_seek.sample_rate ∧
    rn binary64 (5 / 2 * ex_seek.sample_rate) < 2 ^ 64 ∧
    ex_seek.playing = true ∧ ex_seek.stretcher.input = [(3, 3)] ∧
    ex_seek.stretcher.output = [(1, 1), (2, 2)] ∧
    ∃ e1 x y, locate ex_seek (5 / 2) = some e1 ∧ e1.position = 5 ∧
      e1.output_position = 5 ∧ e1.state_changed = true ∧
      unlocked_cycles [4] e1 = some x ∧
      (consume_state_change x).position = 5 ∧
      (consume_state_change x).stretcher.available_read = 0 ∧
      process_callback x true 4 = some y ∧
      y.stretcher.input
        = [(6, 6), (7, 7), (8, 8), (9, 9), (10, 10), (11, 11), (12, 12), (13, 13)] ∧
      y.stretcher.output = [] ∧ y.buf_L = [0, 0, 0, 0] ∧ y.buf_R = [0, 0, 0, 0] ∧
      y.position = 13 ∧ y.playing = true := by
  have hfl : (Int.floor (rn binary64 (5 / 2 * ex_seek.sample_rate))).toNat = 5 := by decide!
  obtain ⟨_, e1, hloc, hp, hop, hs, _, x, hx, _, hxp, hxr, _, _⟩ :=
    C14_locate_then_cycle ex_seek (5 / 2) [4] 4 (by decide!) (by decide!) (by decide!)
  have hlv : locate ex_seek (5 / 2) = some
      { ex_seek with output_position := 5, position := 5, state_changed := true,
                     stretcher := ex_seek.stretcher.reset } := by decide!
  have he1 : e1 = { ex_seek with output_position := 5, position := 5, state_changed := true,
                                 stretcher := ex_seek.stretcher.reset } :=
    Option.some.inj (hloc.symm.trans hlv)
  have hxv : unlocked_cycles [4]
      { ex_seek with output_position := 5, position := 5, state_changed := true,
                     stretcher := ex_seek.stretcher.reset }
      = some (zero_buffers (consume_state_change
          { ex_seek with output_position := 5, position := 5, state_changed := true,
                         stretcher := ex_seek.stretcher.reset }) 4) := by decide!
  have hx2 : x = zero_buffers (consume_state_change
      { ex_seek with output_position := 5, position := 5, state_changed := true,
                     stretcher := ex_seek.stretcher.reset }) 4 := by
    rw [he1] at hx
    exact Option.some.inj (hx.symm.trans hxv)
  have hy : (process_callback (zero_buffers (consume_state_change
      { ex_seek with output_position := 5, position := 5, state_changed := true,
                     stretcher := ex_seek.stretcher.reset }) 4) true 4).isSome = true := by
    decide!
  have hy2 : ∀ y, process_callback (zero_buffers (consume_state_change
      { ex_seek with output_position := 5, position := 5, state_changed := true,
                     stretcher := ex_seek.stretcher.reset }) 4) true 4 = some y →
      y.stretcher.input
        = [(6, 6), (7, 7), (8, 8), (9, 9), (10, 10), (11, 11), (12, 12), (13, 13)] ∧
      y.stretcher.output = [] ∧ y.buf_L = [0, 0, 0, 0] ∧ y.buf_R = [0, 0, 0, 0] ∧
      y.position = 13 ∧ y.playing = true := by
    decide!
  rw [← hx2] at hy hy2
  obtain ⟨y, hy1⟩ := Option.isSome_iff_exists.mp hy
  exact ⟨by decide!, by decide!, by decide!, by decide, by decide, by decide,
    e1, x, y, hloc, hp.trans hfl, hop.trans hfl, hs, hx, hxp.trans hfl, hxr, hy1,
    hy2 y hy1⟩

/-! ## C18 -/

/-- The invariant gives equal lengths for the active pair. -/
theorem Paired_active (x : Engine) (h : Paired x) :
    (activeLeft x).length = (activeRight x).length := by
  obtain ⟨hm, h2 | ⟨hc, _⟩⟩ := h
  · unfold activeLeft activeRight
    cases x.capturing <;> simp [hm, h2.1]
  · simp [activeLeft, activeRight, hc, hm]

/-- The copies made when a recording starts have pairwise equal lengths. -/
theorem begin_capture_paired (e : Engine) (s t : Nat)
    (hm : e.left.length = e.right.length) (hs : s ≤ e.left.length) (ht : t ≤ e.left.length) :
    ∃ e1, begin_capture e s t = some e1 ∧ Paired e1 := by
  have hs2 : s ≤ e.right.length := hm ▸ hs
  have ht2 : t ≤ e.right.length := hm ▸ ht
  refine ⟨{ e with startRecordPosition := s, endRecordPosition := t,
                    left2 := e.left.take s, right2 := e.right.take s,
                    left3 := e.left.drop t, right3 := e.right.drop t, capturing := true },
    by simp [begin_capture, rangeTo, rangeFrom, hs, hs2, ht, ht2], hm, Or.inl ?_⟩
  simp [hs, hs2, hm]

/-- One capture callback keeps the invariant. -/
theorem capture_paired (x : Engine) (input : List Sample) (n : Nat)
    (h : Paired x) (hn : n ≤ input.length) :
    ∃ y, process_callback_capture x input n = some y ∧ Paired y := by
  cases hc : x.capturing with
  | false => exact ⟨x, by simp [process_callback_capture, hc], h⟩
  | true =>
    refine ⟨_, process_callback_capture_eq x input n hc hn, ?_⟩
    obtain ⟨hm, h2 | ⟨hc2, _⟩⟩ := h
    · exact ⟨hm, Or.inl ⟨by simp [h2.1], h2.2⟩⟩
    · rw [hc] at hc2
      exact absurd hc2 (by decide)

/-- A sequence of capture callbacks keeps the invariant. -/
theorem capture_all_paired (cbs : List (List Sample × Nat)) (x : Engine)
    (h : Paired x) (hcb : ∀ cb ∈ cbs, cb.2 ≤ cb.1.length) :
    ∃ y, capture_all cbs x = some y ∧ Paired y := by
  induction cbs generalizing x with
  | nil => exact ⟨x, rfl, h⟩
  | cons cb cbs ih =>
    obtain ⟨y, hy1, hy2⟩ := capture_paired x cb.1 cb.2 h (hcb cb (List.mem_cons_self _ _))
    obtain ⟨z, hz1, hz2⟩ := ih y hy2 (fun c hc => hcb c (List.mem_cons_of_mem _ hc))
    exact ⟨z, by simp only [capture_all, hy1, Option.some_bind, hz1], hz2⟩

/-- `stop_recording` keeps the invariant, for both values of its argument. -/
theorem stop_recording_paired (x : Engine) (commit : Bool) (h : Paired x) :
    Paired (stop_recording x commit) := by
  obtain ⟨hm, h2⟩ := h
  cases hr : x.sound_recording with
  | false =>
    have hsame : stop_recording x commit = x := by simp [stop_recording, hr]
    rw [hsame]
    exact ⟨hm, h2⟩
  | true =>
    rcases h2 with h2 | ⟨_, hr2⟩
    · cases commit
      · exact ⟨by simpa [stop_recording, hr] using hm,
          Or.inl (by simpa [stop_recording, hr] using h2)⟩
      · exact ⟨by simp [stop_recording, hr, h2.1, h2.2],
          Or.inl (by simpa [stop_recording, hr] using h2)⟩
    · rw [hr] at hr2
      exact absurd hr2 (by decide)

/-- Both forms of `start_recording` establish the invariant, whether they start a
recording or are rejected. -/
theorem start_recording_paired (e : Engine) (startMs stopMs : Nat)
    (hmain : e.left.length = e.right.length)
    (hstate : e.capturing = false ∨
      (e.left2.length = e.right2.length ∧ e.left3.length = e.right3.length))
    (hs : msToFrames e startMs ≤ e.left.length)
    (ht : msToFrames e stopMs ≤ e.left.length) :
    (∃ e1, start_recording e startMs stopMs = some e1 ∧ Paired e1) ∧
    (∃ e1, start_recording1 e startMs = some e1 ∧ Paired e1) := by
  cases hr : e.sound_recording with
  | false =>
    have hp : Paired e := by
      rcases hstate with hc | h2
      · exact ⟨hmain, Or.inr ⟨hc, hr⟩⟩
      · exact ⟨hmain, Or.inl h2⟩
    exact ⟨⟨e, by simp [start_recording, hr], hp⟩, ⟨e, by simp [start_recording1, hr], hp⟩⟩
  | true =>
    cases hc : e.capturing with
    | true =>
      have hp : Paired e := by
        rcases hstate with hc2 | h2
        · rw [hc] at hc2
          exact absurd hc2 (by decide)
        · exact ⟨hmain, Or.inl h2⟩
      exact ⟨⟨e, by simp [start_recording, hr, hc], hp⟩,
        ⟨e, by simp [start_recording1, hr, hc], hp⟩⟩
    | false =>
      obtain ⟨a, ha1, ha2⟩ := begin_capture_paired e _ _ hmain hs ht
      obtain ⟨b, hb1, hb2⟩ := begin_capture_paired e _ _ hmain hs (Nat.le_refl _)
      exact ⟨⟨a, by simp [start_recording, hr, hc, ha1], ha2⟩,
        ⟨b, by simp [start_recording1, hr, hc, hb1], hb2⟩⟩

/-- C18: on an engine whose two main channels have equal length L (and which has no
recording in progress, or one whose capture and post buffers are pairwise of equal
length), for bounds with start ≤ end ≤ L: after `start_recording` in either form,
after every sequence of capture callbacks, and after `stop_recording` with commit
true or false, the two channels of the active pair (the capture pair while
capturing, the main pair otherwise) have equal length; and all these calls return. -/
theorem C18_equal_channel_length (e : Engine) (startMs stopMs : Nat)
    (cbs : List (List Sample × Nat)) (commit : Bool)
    (hmain : e.left.length = e.right.length)
    (hstate : e.capturing = false ∨
      (e.left2.length = e.right2.length ∧ e.left3.length = e.right3.length))
    (hse : msToFrames e startMs ≤ msToFrames e stopMs)
    (heL : msToFrames e stopMs ≤ e.left.length)
    (hcb : ∀ cb ∈ cbs, cb.2 ≤ cb.1.length) :
    (∃ e1 e2, start_recording e startMs stopMs = some e1 ∧
      (activeLeft e1).length = (activeRight e1).length ∧
      capture_all cbs e1 = some e2 ∧
      (activeLeft e2).length = (activeRight e2).length ∧
      (activeLeft (stop_recording e2 commit)).length
        = (activeRight (stop_recording e2 commit)).length) ∧
    (∃ e1 e2, start_recording1 e startMs = some e1 ∧
      (activeLeft e1).length = (activeRight e1).length ∧
      capture_all cbs e1 = some e2 ∧
      (activeLeft e2).length = (activeRight e2).length ∧
      (activeLeft (stop_recording e2 commit)).length
        = (activeRight (stop_recording e2 commit)).length) := by
  obtain ⟨⟨a, ha1, ha2⟩, ⟨b, hb1, hb2⟩⟩ :=
    start_recording_paired e startMs stopMs hmain hstate (le_trans hse heL) heL
  obtain ⟨a2, ha3, ha4⟩ := capture_all_paired cbs a ha2 hcb
  obtain ⟨b2, hb3, hb4⟩ := capture_all_paired cbs b hb2 hcb
  exact ⟨⟨a, a2, ha1, Paired_active a ha2, ha3, Paired_active a2 ha4,
      Paired_active _ (stop_recording_paired a2 commit ha4)⟩,
    ⟨b, b2, hb1, Paired_active b hb2, hb3, Paired_active b2 hb4,
      Paired_active _ (stop_recording_paired b2 commit hb4)⟩⟩

/-- C18 at the 10-frame example engine: the range 1 s to 2 s, three frames captured
in two callbacks, then a commit. -/
theorem C18_equal_channel_length_witness :
    ex_five.left.length = ex_five.right.length ∧ ex_five.capturing = false ∧
    msToFrames ex_five 1000 ≤ msToFrames ex_five 2000 ∧
    msToFrames ex_five 2000 ≤ ex_five.left.length ∧
    ∃ e1 e2, start_recording ex_five 1000 2000 = some e1 ∧
      (activeLeft e1).length = (activeRight e1).length ∧
      capture_all ex_takes e1 = some e2 ∧
      (activeLeft e2).length = (activeRight e2).length ∧
      (activeLeft (stop_recording e2 true)).length
        = (activeRight (stop_recording e2 true)).length :=
  ⟨by decide, by decide, by decide!, by decide!,
    (C18_equal_channel_length ex_five 1000 2000 ex_takes true (by decide)
      (Or.inl (by decide)) (by decide!) (by decide!) (by decide)).1⟩

/-! ## C19 -/

/-- Scaling does not change the length of the buffer. -/
theorem gain_spec_length (buf : List Sample) (n : Nat) (gain : ℚ) :
    (gain_spec buf n gain).length = buf.length := by
  simp only [gain_spec, List.length_append, List.length_map, List.length_take,
    List.length_drop]
  omega

/-- The scalar loop over the first `n` samples is the spec's gain step. -/
theorem scaleRange_zero (buf : List Sample) (n : Nat) (gain : ℚ) (h : n ≤ buf.length) :
    scaleRange buf 0 n gain = some (gain_spec buf n gain) := by
  simp [scaleRange, gain_spec, h]

/-- Scaling the `b` samples after an already scaled prefix of `a` samples gives the
scaled prefix of `a + b` samples. -/
theorem scaleRange_next (buf : List Sample) (a b : Nat) (gain : ℚ)
    (h : a + b ≤ buf.length) :
    scaleRange (gain_spec buf a gain) a b gain = some (gain_spec buf (a + b) gain) := by
  have ha : a ≤ buf.length := by omega
  have hlen : ((buf.take a).map (fun x => x * gain)).length = a := by
    simp [List.length_take, ha]
  have htake : (gain_spec buf a gain).take a = (buf.take a).map (fun x => x * gain) :=
    List.take_left' hlen
  have hdrop : (gain_spec buf a gain).drop a = buf.drop a := List.drop_left' hlen
  have hdrop2 : (gain_spec buf a gain).drop (a + b) = buf.drop (a + b) := by
    rw [← List.drop_drop, hdrop, List.drop_drop]
  unfold scaleRange
  rw [if_pos (by rw [gain_spec_length]; exact h), htake, hdrop, hdrop2]
  simp only [gain_spec, List.take_add, List.map_append]

/-- The three phases of the unrolled path, for `h` leading samples, `c` vector steps
and `tl` trailing samples that add up to `n`, are the spec's gain step on `n`
samples. -/
theorem apply_gain_chain (buf : List Sample) (h c tl n : Nat) (gain : ℚ)
    (hsum : h + 4 * c + tl = n) (hn : n ≤ buf.length) :
    ((scaleRange buf 0 h gain).bind fun b1 =>
      (scaleRange b1 h (4 * c) gain).bind fun b2 =>
        scaleRange b2 (h + 4 * c) tl gain) = some (gain_spec buf n gain) := by
  rw [scaleRange_zero buf h gain (by omega), Option.some_bind,
    scaleRange_next buf h (4 * c) gain (by omega), Option.some_bind,
    scaleRange_next buf (h + 4 * c) tl gain (by omega), hsum]

/-- The unrolled path on a frame count that is a positive multiple of 16: the spec's
gain step, for every address of the buffer. -/
theorem apply_gain_multiple_of_16 (buf : List Sample) (addr n : Nat) (gain : ℚ)
    (h16 : n % 16 = 0) (h1 : 1 ≤ n) (h32 : n < U32) (hn : n ≤ buf.length) :
    apply_gain_to_buffer buf addr n gain = some (gain_spec buf n gain) := by
  have hc : (n / 4 + U32 - 1) % U32 = n / 4 - 1 := by
    unfold U32 at *
    omega
  unfold apply_gain_to_buffer
  simp only [hc]
  by_cases h4 : addr % 16 = 4
  · simp only [h4, true_or, if_true]
    exact apply_gain_chain buf 3 (n / 4 - 1) 1 n gain (by omega) hn
  by_cases h8 : addr % 16 = 8
  · simp only [h8, true_or, or_true, if_true]
    exact apply_gain_chain buf 2 (n / 4 - 1) 2 n gain (by omega) hn
  by_cases h12 : addr % 16 = 12
  · simp only [h12, or_true, if_true]
    exact apply_gain_chain buf 1 (n / 4 - 1) 3 n gain (by omega) hn
  by_cases h0 : addr % 16 = 0
  · simp only [h4, h8, h12, h0, or_self, if_false, if_true]
    rw [show 4 * (n / 4) = n by omega]
    exact scaleRange_zero buf n gain hn
  · simp only [h4, h8, h12, h0, or_self, if_false]
    exact scaleRange_zero buf n gain hn

/-- C19: for every frame count `nframes ≥ 1` (a `uint32_t`) and every address of the
two output buffers, which hold at least `nframes` frames, the gain step of a
playing cycle returns, and each channel's buffer is then the spec's gain step of it:
each of the first `nframes` samples multiplied by `gain` once, every later sample
untouched. The unrolled path, taken when `nframes` is a multiple of 16, and the
scalar loop, taken otherwise, both give that buffer. -/
theorem C19_gain_step (e : Engine) (nframes : Nat)
    (h1 : 1 ≤ nframes) (h32 : nframes < U32)
    (hL : nframes ≤ e.buf_L.length) (hR : nframes ≤ e.buf_R.length) :
    gain_step e nframes =
      some { e with buf_L := gain_spec e.buf_L nframes e.gain,
                    buf_R := gain_spec e.buf_R nframes e.gain } ∧
    scaleRange e.buf_L 0 nframes e.gain = some (gain_spec e.buf_L nframes e.gain) ∧
    scaleRange e.buf_R 0 nframes e.gain = some (gain_spec e.buf_R nframes e.gain) ∧
    (∀ addr, nframes % 16 = 0 →
      apply_gain_to_buffer e.buf_L addr nframes e.gain
          = scaleRange e.buf_L 0 nframes e.gain ∧
      apply_gain_to_buffer e.buf_R addr nframes e.gain
          = scaleRange e.buf_R 0 nframes e.gain) := by
  have sL := scaleRange_zero e.buf_L nframes e.gain hL
  have sR := scaleRange_zero e.buf_R nframes e.gain hR
  refine ⟨?_, sL, sR, ?_⟩
  · unfold gain_step
    by_cases h16 : nframes % 16 = 0
    · rw [if_neg (not_not.mpr h16),
        apply_gain_multiple_of_16 e.buf_L e.addr_L nframes e.gain h16 h1 h32 hL,
        apply_gain_multiple_of_16 e.buf_R e.addr_R nframes e.gain h16 h1 h32 hR]
      rfl
    · rw [if_pos h16, sL, sR]
      rfl
  · intro addr h16
    rw [sL, sR]
    exact ⟨apply_gain_multiple_of_16 e.buf_L addr nframes e.gain h16 h1 h32 hL,
      apply_gain_multiple_of_16 e.buf_R addr nframes e.gain h16 h1 h32 hR⟩

/-- C19 at an engine with 16-frame output buffers at the alignments 4 and 8 and a
gain of 2: the unrolled path doubles all 16 samples of both buffers. -/
theorem C19_gain_step_witness :
    16 ≤ ex_gain.buf_L.length ∧ 16 ≤ ex_gain.buf_R.length ∧
    ex_gain.addr_L % 16 = 4 ∧ ex_gain.addr_R % 16 = 8 ∧
    (gain_step ex_gain 16).map (fun e => (e.buf_L, e.buf_R)) =
      some ([2, 4, 6, 8, 10, 12, 14, 16, 18, 20, 22, 24, 26, 28, 30, 32],
        [2, 2, 2, 2, 2, 2, 2, 2, 2, 2, 2, 2, 2, 2, 2, 2]) := by
  obtain ⟨hg, _, _, _⟩ :=
    C19_gain_step ex_gain 16 (by decide) (by decide) (by decide) (by decide)
  refine ⟨by decide, by decide, by decide, by decide, ?_⟩
  rw [hg]
  decide!

/-! ## C20 -/

/-- C20 (the code does less, or more, than its documentation says): on a 16-byte
aligned buffer of five samples, `apply_gain_to_buffer(buf, 5, 2)` multiplies the
first four samples only, `buf[4]` keeps its value; on a buffer at alignment 4,
`apply_gain_to_buffer(buf, 2, 2)` first multiplies three samples, one more than
`nframes`, then decrements `ctr` = 0 to 4294967295 and runs its vector loop out of
the buffer, so that the call has no defined result. The gain step of a cycle of 0
frames, which is a multiple of 16, reaches the function in that way when an output
buffer is at alignment 4. -/
theorem C20_apply_gain_misses_samples :
    apply_gain_to_buffer [1, 1, 1, 1, 1] 0 5 2 = some [2, 2, 2, 2, 1] ∧
    gain_spec [1, 1, 1, 1, 1] 5 2 = [2, 2, 2, 2, 2] ∧
    scaleRange [1, 1, 1, 1, 1, 1, 1, 1] 0 3 2 = some [2, 2, 2, 1, 1, 1, 1, 1] ∧
    (2 / 4 + U32 - 1) % U32 = 4294967295 ∧
    apply_gain_to_buffer [1, 1, 1, 1, 1, 1, 1, 1] 4 2 2 = none ∧
    ex_gain.addr_L % 16 = 4 ∧ gain_step ex_gain 0 = none := by
  decide!

/-! ## C21 -/

/-- A `uint32_t` stored in an `int32_t` and read back as `uint32_t` is itself. -/
theorem toU32_toI32 (n : Nat) (h : n < U32) : toU32 (toI32 n) = n := by
  have hm : n % U32 = n := Nat.mod_eq_of_lt h
  unfold toU32 toI32
  rw [hm]
  unfold U32 at *
  split_ifs <;> omega

/-- The statement `input_frames -= feed` after the clamp always leaves 0, whether the
clamp was taken, and whatever it computed. -/
theorem quota_after_clamp (len position : Nat) (q : Int) :
    toI32 ((toU32 (feed_clamp len position q).2 + U32
      - (feed_clamp len position q).1) % U32) = 0 := by
  have hz : toI32 0 = 0 := by decide
  unfold feed_clamp
  simp only
  split_ifs with hc
  · have hlt : ((len + SIZE - position % SIZE) % SIZE) % U32 < U32 :=
      Nat.mod_lt _ (by decide)
    simp only [toU32_toI32 _ hlt]
    rw [Nat.add_sub_cancel_left, Nat.mod_self, hz]
  · simp only
    rw [Nat.add_sub_cancel_left, Nat.mod_self, hz]

/-- The feed loop on a quota that is not positive does not run. -/
theorem feed_loop_nonpos (pmod fuel : Nat) (e : Engine) (q : Int) (h : ¬ q > 0) :
    feed_loop pmod fuel e q = some e := by
  cases fuel <;> simp [feed_loop, h]

/-- With fuel for one iteration the feed loop is that one iteration. -/
theorem feed_loop_succ (pmod fuel : Nat) (e : Engine) (q : Int) :
    feed_loop pmod (fuel + 1) e q =
      (if q > 0 then (feed_iter pmod e q).map Prod.fst else some e) := by
  unfold feed_loop
  by_cases hq : q > 0
  · rw [if_pos hq, if_pos hq]
    cases hi : feed_iter pmod e q with
    | none => rfl
    | some p =>
      have hp : p.2 = 0 := by
        unfold feed_iter at hi
        obtain ⟨lr, _, h2⟩ := Option.map_eq_some'.mp hi
        rw [← h2]
        exact quota_after_clamp _ _ q
      simp only [Option.some_bind, Option.map_some', hp, feed_loop_zero]
  · rw [if_neg hq, if_neg hq]

/-- C21: the feed loop runs at most one iteration, for every state, cursor width and
pending quota. After the first iteration the pending quota `input_frames` is 0,
whether the clamp was taken or not and also when it wraps around; so the loop, on
any fuel of at least one iteration and on the fuel the cycle gives it, is exactly
its first iteration when the quota is positive (it has a result exactly when that
iteration reads inside its vectors) and does nothing otherwise; and the pipeline
afterwards is as before or has received one `write_audio`. -/
theorem C21_feed_loop_one_iteration (pmod fuel : Nat) (e : Engine) (q : Int) :
    (∀ len position,
      toI32 ((toU32 (feed_clamp len position q).2 + U32
        - (feed_clamp len position q).1) % U32) = 0) ∧
    (∀ p, feed_iter pmod e q = some p → p.2 = 0) ∧
    feed_loop pmod (fuel + 1) e q =
      (if q > 0 then (feed_iter pmod e q).map Prod.fst else some e) ∧
    feed_loop pmod (input_quota e.stretcher).toNat e (input_quota e.stretcher) =
      (if input_quota e.stretcher > 0 then
        (feed_iter pmod e (input_quota e.stretcher)).map Prod.fst
      else some e) ∧
    (∀ e1, feed_loop pmod (fuel + 1) e q = some e1 →
      e1.stretcher = e.stretcher ∨ ∃ l r, e1.stretcher = e.stretcher.write_audio l r) := by
  refine ⟨fun len position => quota_after_clamp len position q, ?_,
    feed_loop_succ pmod fuel e q, ?_, ?_⟩
  · intro p hi
    unfold feed_iter at hi
    obtain ⟨lr, _, h2⟩ := Option.map_eq_some'.mp hi
    rw [← h2]
    exact quota_after_clamp _ _ q
  · by_cases hq : input_quota e.stretcher > 0
    · obtain ⟨k, hk⟩ : ∃ k, (input_quota e.stretcher).toNat = k + 1 :=
        ⟨(input_quota e.stretcher).toNat - 1, by omega⟩
      rw [hk, feed_loop_succ]
    · rw [if_neg hq]
      exact feed_loop_nonpos pmod _ e _ hq
  · intro e1 h1
    rw [feed_loop_succ] at h1
    by_cases hq : q > 0
    · rw [if_pos hq] at h1
      obtain ⟨p, hp, hp1⟩ := Option.map_eq_some'.mp h1
      unfold feed_iter at hp
      obtain ⟨lr, _, h2⟩ := Option.map_eq_some'.mp hp
      refine Or.inr ⟨lr.1, lr.2, ?_⟩
      rw [← hp1, ← h2]
    · rw [if_neg hq] at h1
      exact Or.inl (by rw [← Option.some.inj h1])

/-! ## C22 -/

/-- C22 (the shifted read runs past the end of the source): with a shift of -1 frame,
the cursor at frame 1 of 4 and a quota of 8, the clamp gives `feed` = 3 = 4 - 1. The
shifted start index 1 + 1 = 2 is inside the source, so the left channel is read from
`&left[2]` and not from the zero-filled buffer, for 3 frames: the indices 2, 3, 4, of
which 4 is outside the source. The read has no defined result, and neither has the
cycle, while the unshifted right channel, indices 1, 2, 3, is read inside. The same
happens to the right channel with a shift of +1 frame. -/
theorem C22_shifted_read_overruns :
    shiftInFrames ex_shift_playing = -1 ∧
    input_quota ex_shift_playing.stretcher = 8 ∧
    feed_clamp (activeLeft ex_shift_playing).length ex_shift_playing.position 8 = (3, 3) ∧
    (activeLeft ex_shift_playing).length > ex_shift_playing.position + 1 ∧
    slice (activeLeft ex_shift_playing) (ex_shift_playing.position + 1) 3 = none ∧
    slice (activeRight ex_shift_playing) ex_shift_playing.position 3 = some [2, 3, 4] ∧
    feed_channels ex_shift_playing ex_shift_playing.position 3 = none ∧
    process_callback ex_shift_playing true 4 = none ∧
    shiftInFrames ex_shift_positive = 1 ∧
    slice (activeRight ex_shift_positive) (ex_shift_positive.position + 1) 3 = none ∧
    feed_channels ex_shift_positive ex_shift_positive.position 3 = none ∧
    process_callback ex_shift_positive true 4 = none := by
  decide!

/-! ## C23 -/

/-- C23: with recording enabled, `stop_recording(true)` makes each main channel the
capture buffer followed by the post buffer, as they are at the call, whether
`capturing` is set or not; so when the four buffers are empty, as on an engine on
which `start_recording` was never called, both main channels are empty afterwards,
whatever they held. -/
theorem C23_stop_recording_commits_unconditionally (e : Engine)
    (h : e.sound_recording = true) :
    (stop_recording e true).left = e.left2 ++ e.left3 ∧
    (stop_recording e true).right = e.right2 ++ e.right3 ∧
    (stop_recording { e with capturing := false } true).left = e.left2 ++ e.left3 ∧
    (stop_recording { e with capturing := true } true).left = e.left2 ++ e.left3 ∧
    (e.left2 = [] ∧ e.left3 = [] ∧ e.right2 = [] ∧ e.right3 = [] →
      (stop_recording e true).left = [] ∧ (stop_recording e true).right = []) := by
  refine ⟨by simp [stop_recording, h], by simp [stop_recording, h],
    by simp [stop_recording, h], by simp [stop_recording, h], ?_⟩
  rintro ⟨h1, h2, h3, h4⟩
  simp [stop_recording, h, h1, h2, h3, h4]

/-- C23 at the freshly loaded example engine: four frames are loaded, no recording
was ever started, and `stop_recording(true)` leaves both main channels empty. -/
theorem C23_stop_recording_commits_unconditionally_witness :
    ex_loaded.sound_recording = true ∧ ex_loaded.capturing = false ∧
    ex_loaded.left = [1, 2, 3, 4] ∧
    (stop_recording ex_loaded true).left = [] ∧
    (stop_recording ex_loaded true).right = [] := by
  obtain ⟨_, _, _, _, hempty⟩ :=
    C23_stop_recording_commits_unconditionally ex_loaded (by decide)
  obtain ⟨hl, hr⟩ := hempty ⟨by decide, by decide, by decide, by decide⟩
  exact ⟨by decide, by decide, by decide, hl, hr⟩

/-! ## C24 -/

namespace PipesConfParser

theorem parseTick_not_finished (st : State) (b : Char) (h : st.s ≠ S.Finished) :
    (parseTick st b).1.s ≠ S.Finished := by
  unfold parseTick
  cases hs : st.s <;> simp only [] <;> (try split_ifs) <;> simp_all

theorem parseBuffer_not_finished (bytes : List Char) :
    ∀ st : State, st.s ≠ S.Finished → (parseBuffer st bytes).1.s ≠ S.Finished := by
  induction bytes with
  | nil => intro st h; simpa [parseBuffer] using h
  | cons b bs ih =>
    intro st h
    have h1 := parseTick_not_finished st b h
    unfold parseBuffer
    rcases hp : parseTick st b with ⟨st1, err⟩
    rw [hp] at h1
    cases err
    · exact ih st1 h1
    all_goals exact h1

theorem parseReads_not_finished (reads : List (List Char)) :
    ∀ st : State, st.s ≠ S.Finished → (parseReads st reads).1.s ≠ S.Finished := by
  induction reads with
  | nil => intro st h; simpa [parseReads] using h
  | cons buf rest ih =>
    intro st h
    have h1 := parseBuffer_not_finished buf st h
    unfold parseReads
    rcases hp : parseBuffer st buf with ⟨st1, err⟩
    rw [hp] at h1
    cases err
    · exact ih st1 h1
    all_goals exact h1

theorem parseBuffer_append (xs ys : List Char) :
    ∀ st st1 : State, parseBuffer st xs = (st1, Error.NoError) →
      parseBuffer st (xs ++ ys) = parseBuffer st1 ys := by
  induction xs with
  | nil =>
    intro st st1 h
    simp only [parseBuffer, Prod.mk.injEq, and_true] at h
    simp [h]
  | cons b bs ih =>
    intro st st1 h
    rw [List.cons_append]
    unfold parseBuffer at h
    conv_lhs => unfold parseBuffer
    rcases hp : parseTick st b with ⟨st2, err⟩
    rw [hp] at h
    cases err
    · exact ih st2 st1 h
    all_goals simp at h

theorem parseBuffer_dollar (ys : List Char) :
    ∀ st : State, st.s = S.ValuePlaybackDollar → parseBuffer st ys = (st, Error.NoError) := by
  induction ys with
  | nil => intro st _; rfl
  | cons b bs ih =>
    intro st h
    have hp : parseTick st b = (st, Error.NoError) := by
      unfold parseTick
      rw [h]
    unfold parseBuffer
    rw [hp]
    exact ih st h

theorem parseReads_dollar (reads : List (List Char)) :
    ∀ st : State, st.s = S.ValuePlaybackDollar → parseReads st reads = (st, Error.NoError) := by
  induction reads with
  | nil => intro st _; rfl
  | cons buf rest ih =>
    intro st h
    unfold parseReads
    rw [parseBuffer_dollar buf st h]
    exact ih st h

theorem sample_reaches_dollar :
    parseBuffer initParse sample.toList =
      ({ s := S.ValuePlaybackDollar, key := "playback", value := "/home/" }, Error.NoError) := by
  decide

theorem toInt_ne_zero (err : Error) (h : err ≠ Error.NoError) : err.toInt ≠ 0 := by
  cases err <;> simp_all [Error.toInt]

/-- C24: no transition of `parseTick` assigns `Finished`: a step from a state other
than `Finished` ends in a state other than `Finished`, so from the initial state of
`initParse`, which is `Init`, no byte sequence and no sequence of buffers puts the
parser in `Finished`. Hence for a file that is opened (`fd` is not 0) and read to the
end (the last read returns 0) without a syntax error, `parse` returns `IncompleteFile`,
which is 3 and not 0. The sample configuration of the header comment is such a file,
whatever bytes follow it in the buffer and whatever buffers come after it: the `$` of
its first value puts the parser in `ValuePlaybackDollar`, which takes every byte. -/
theorem C24_parser_never_finished (fd : Int) (reads : List (List Char)) (bytes : List Char)
    (hfd : fd ≠ 0) (hok : (parseReads initParse reads).2 = Error.NoError) :
    (∀ (st : State) (b : Char), st.s ≠ S.Finished → (parseTick st b).1.s ≠ S.Finished) ∧
    initParse.s = S.Init ∧
    (parseBuffer initParse bytes).1.s ≠ S.Finished ∧
    (parseReads initParse reads).1.s ≠ S.Finished ∧
    parse fd reads false = Error.IncompleteFile.toInt ∧
    Error.IncompleteFile.toInt = 3 ∧
    parse fd reads false ≠ 0 ∧
    (∀ more : List (List Char),
      parseReads initParse ((sample.toList ++ bytes) :: more) =
        ({ s := S.ValuePlaybackDollar, key := "playback", value := "/home/" }, Error.NoError) ∧
      parse fd ((sample.toList ++ bytes) :: more) false = Error.IncompleteFile.toInt) := by
  have hinit : initParse.s ≠ S.Finished := by decide
  have hfin := parseReads_not_finished reads initParse hinit
  have hparse : parse fd reads false = Error.IncompleteFile.toInt := by
    unfold parse
    simp [hfd, hok, hfin]
  have hsample : ∀ more : List (List Char),
      parseReads initParse ((sample.toList ++ bytes) :: more) =
        ({ s := S.ValuePlaybackDollar, key := "playback", value := "/home/" },
          Error.NoError) := by
    intro more
    unfold parseReads
    rw [parseBuffer_append _ _ _ _ sample_reaches_dollar, parseBuffer_dollar _ _ rfl]
    exact parseReads_dollar _ _ rfl
  refine ⟨parseTick_not_finished, rfl, parseBuffer_not_finished bytes initParse hinit, hfin,
    hparse, rfl, ?_, ?_⟩
  · rw [hparse]; decide
  · intro more
    refine ⟨hsample more, ?_⟩
    unfold parse
    simp only [hsample more]
    simp [hfd]

/-- C24, witness: the sample configuration, read in one piece from descriptor 3, goes
through without a syntax error and `parse` returns 3. -/
theorem C24_parser_never_finished_witness :
    (3 : Int) ≠ 0 ∧ (parseReads initParse [sample.toList]).2 = Error.NoError ∧
    (parseReads initParse [sample.toList]).1.s = S.ValuePlaybackDollar ∧
    parse 3 [sample.toList] false = 3 :=
  have hok : (parseReads initParse [sample.toList]).2 = Error.NoError := by decide
  ⟨by decide, hok, by decide,
    (C24_parser_never_finished 3 [sample.toList] [] (by decide) hok).2.2.2.2.1⟩

end PipesConfParser

end StretchPlayer
